import Mathlib

/-!
Shallow embedding of the `bit` ANSI-font rendering engine (Go sources
`ansifonts/render.go`, `ansifonts/kerning.go`, and the options/validation
code) together with proofs about its layout, kerning, validation, word
spacing, assembly, and styling behaviour.

Conventions of the embedding:
* Go strings are Lean `String`s; rune-level operations (`[]rune(s)`,
  `utf8.RuneCountInString`) become `String.toList` / `String.length`.
* Go `int` is Lean `Int` (overflow is irrelevant at the scales involved);
  Go `float64` values in this code are always exact multiples of 1/2, so
  they are embedded as `Rat` with explicit rounding/truncation functions
  matching Go's `math.Round` / `math.Ceil` / `int(...)`.
* Go maps keyed by single-character strings become association lists with
  first-match lookup; a missing key yields the Go zero value, matching
  `m[k]` on absent keys.  A `nil` map is distinguished from an empty map
  by wrapping the association list in `Option`.
* Fallible Go operations are total here; out-of-range slice indexing
  (which panics in Go) is embedded with explicit default values and the
  theorems carry hypotheses keeping indices in range.
-/

/-! ## Generic helpers -/

/-- First-match association-list lookup, mirroring a Go map read
`v, ok := m[k]`. -/
def assocFind (m : List (String × α)) (k : String) : Option α :=
  match m.find? (fun p => p.1 == k) with
  | some p => some p.2
  | none => none

/-- Go map read `m[k]` with the zero value for missing keys. -/
def assocFindD (m : List (String × α)) (k : String) (d : α) : α :=
  (assocFind m k).getD d

/-- Association-list lookup keyed by a pair of strings (the kerning cache
`map[[2]string]int`). -/
def assocFind2 (m : List ((String × String) × α)) (k : String × String) : Option α :=
  match m.find? (fun p => p.1.1 == k.1 && p.1.2 == k.2) with
  | some p => some p.2
  | none => none

/-- Go map read for the pair-keyed cache, zero value if missing. -/
def assocFind2D (m : List ((String × String) × α)) (k : String × String) (d : α) : α :=
  (assocFind2 m k).getD d

/-- Addition on `ℚ` by the textbook formula.  (`Rat.add` itself is marked
irreducible, which blocks kernel evaluation in `decide`; this wrapper is
definitionally transparent and provably equal to `+` — see `qadd_eq`.) -/
def qadd (a b : ℚ) : ℚ :=
  mkRat (a.num * b.den + b.num * a.den) (a.den * b.den)

/-- Subtraction on `ℚ` by the textbook formula (see `qadd`). -/
def qsub (a b : ℚ) : ℚ :=
  mkRat (a.num * b.den - b.num * a.den) (a.den * b.den)

/-- Multiplication on `ℚ` by the textbook formula (see `qadd`). -/
def qmul (a b : ℚ) : ℚ :=
  mkRat (a.num * b.num) (a.den * b.den)

/-- Division on `ℚ` by the textbook formula (see `qadd`). -/
def qdiv (a b : ℚ) : ℚ :=
  Rat.divInt (a.num * b.den) (a.den * b.num)

/-- The constant `0.5` (the engine's half-pixel unit). -/
def qhalf : ℚ := mkRat 1 2

/-- Floor of a rational as an integer (`num.fdiv den`; the denominator is
positive, so floor division computes the floor). -/
def ratFloor (q : ℚ) : ℤ :=
  q.num.fdiv q.den

/-- Ceiling of a rational as an integer. -/
def ratCeil (q : ℚ) : ℤ :=
  -ratFloor (-q)

/-- Go `math.Round` (round half away from zero) on an exact rational. -/
def goRound (q : ℚ) : ℤ :=
  if 0 ≤ q then ratFloor (qadd q qhalf) else ratCeil (qsub q qhalf)

/-- Go `int(x)` conversion from float (truncation toward zero) on an exact
rational. -/
def goTrunc (q : ℚ) : ℤ :=
  if 0 ≤ q then ratFloor q else ratCeil q

/-- `strings.TrimRight(s, " ")`: drop trailing space characters. -/
def rtrimList (l : List Char) : List Char :=
  (l.reverse.dropWhile (fun c => c = ' ')).reverse

/-- `strings.TrimRight(s, " ")` on strings. -/
def rtrim (s : String) : String :=
  String.mk (rtrimList s.toList)

/-- `strings.Split(text, "\n")`: split into lines at newline characters,
keeping empty pieces. -/
def splitLines (l : List Char) : List String :=
  go [] l
where
  go (cur : List Char) : List Char → List String
    | [] => [String.mk cur.reverse]
    | c :: cs =>
      if c = '\n' then String.mk cur.reverse :: go [] cs
      else go (c :: cur) cs

/-- Whether `strings.TrimSpace(line)` is empty: every character is
whitespace.  (The bitmaps in this engine only use the plain space, the
other cutset characters are included for fidelity.) -/
def goIsBlank (s : String) : Bool :=
  s.toList.all (fun c => c = ' ' ∨ c = '\t' ∨ c = '\n' ∨ c = '\x0b' ∨ c = '\x0c' ∨ c = '\r')

/-! ## Data model (`part_000`: types.go of package ansifonts) -/

/-- `FontData` from the source.  `Characters` is `none` for a Go `nil` map
and `some kvs` for a non-nil map with entries `kvs`. -/
structure FontData where
  Name : String
  Author : String := ""
  License : String := ""
  Characters : Option (List (String × List String))
  deriving Repr, DecidableEq

/-- Iteration/lookup view of the characters map: a `nil` Go map iterates
zero times and misses every lookup, exactly like an empty map. -/
def FontData.chars (fd : FontData) : List (String × List String) :=
  fd.Characters.getD []

/-- `TextAlignment` constants (Go ints). -/
def LeftAlign : Int := 0
def CenterAlign : Int := 1
def RightAlign : Int := 2

/-- `GradientDirection` constants (Go ints). -/
def UpDown : Int := 0
def DownUp : Int := 1
def LeftRight : Int := 2
def RightLeft : Int := 3

/-- `ColorMode` constants (Go ints). -/
def SingleColor : Int := 0
def Gradient : Int := 1
def Rainbow : Int := 2

/-- `ShadowStyle` constants (Go ints). -/
def LightShade : Int := 0
def MediumShade : Int := 1
def DarkShade : Int := 2

/-- `RenderOptions` from the source.  The enum-typed fields are Go ints and
are kept as `Int` so that out-of-range values remain representable (the
validator checks their ranges). -/
structure RenderOptions where
  CharSpacing : Int
  WordSpacing : Int
  LineSpacing : Int
  Alignment : Int
  TextColor : String
  GradientColor : String := ""
  GradientDirection : Int := 0
  UseGradient : Bool
  ColorMode : Int
  RainbowColors : List String
  RainbowFrame : Int
  RainbowSpeed : Int
  ScaleFactor : ℚ
  ShadowEnabled : Bool
  ShadowHorizontalOffset : Int
  ShadowVerticalOffset : Int
  ShadowStyle : Int
  TextLines : List String := []
  deriving Repr, DecidableEq

/-- `DefaultRenderOptions` from the source. -/
def DefaultRenderOptions : RenderOptions where
  CharSpacing := 1
  WordSpacing := 2
  LineSpacing := 1
  Alignment := CenterAlign
  TextColor := "#FFFFFF"
  UseGradient := false
  ColorMode := SingleColor
  RainbowColors := []
  RainbowFrame := 0
  RainbowSpeed := 5
  ScaleFactor := 1
  ShadowEnabled := false
  ShadowHorizontalOffset := 0
  ShadowVerticalOffset := 0
  ShadowStyle := LightShade
  TextLines := []

/-- Validation constants from the source. -/
def MinCharSpacing : Int := 0
def MaxCharSpacing : Int := 10
def MinWordSpacing : Int := 0
def MaxWordSpacing : Int := 20
def MinLineSpacing : Int := 0
def MaxLineSpacing : Int := 10
def MinScaleFactor : ℚ := mkRat 1 2
def MaxScaleFactor : ℚ := 4
def MinShadowOffset : Int := -5
def MaxShadowOffset : Int := 5

/-- The three error shapes returned by `Validate` (`ValidationError`,
`ScaleValidationError`, `ColorValidationError`), each carrying the
offending field name, the given value, and (for the numeric shapes) the
valid bounds. -/
inductive ValidationErr where
  | range (field : String) (value lo hi : Int)
  | scale (field : String) (value lo hi : ℚ)
  | color (field value : String)
  deriving Repr, DecidableEq

/-- `isValidHexColor` from the source: exactly `#` followed by six
characters from the class `[0-9A-Fa-f]`. -/
def isValidHexColor (color : String) : Bool :=
  if color.length ≠ 7 then false
  else match color.toList with
  | c0 :: rest =>
    if c0 ≠ '#' then false
    else rest.all (fun c =>
      ('0' ≤ c ∧ c ≤ '9') ∨ ('A' ≤ c ∧ c ≤ 'F') ∨ ('a' ≤ c ∧ c ≤ 'f'))
  | [] => false

/-- Index of the first invalid entry of `RainbowColors`, with its value,
mirroring the source's `for i, color := range opts.RainbowColors` loop. -/
def firstBadRainbow (colors : List String) : Option (Nat × String) :=
  colors.enum.find? (fun p => !isValidHexColor p.2)

/-- `Validate` from the source: the first failing check (in source order)
produces the error; `none` means the options validate. -/
def Validate (opts : RenderOptions) : Option ValidationErr :=
  if opts.CharSpacing < MinCharSpacing ∨ opts.CharSpacing > MaxCharSpacing then
    some (.range "CharSpacing" opts.CharSpacing MinCharSpacing MaxCharSpacing)
  else if opts.WordSpacing < MinWordSpacing ∨ opts.WordSpacing > MaxWordSpacing then
    some (.range "WordSpacing" opts.WordSpacing MinWordSpacing MaxWordSpacing)
  else if opts.LineSpacing < MinLineSpacing ∨ opts.LineSpacing > MaxLineSpacing then
    some (.range "LineSpacing" opts.LineSpacing MinLineSpacing MaxLineSpacing)
  else if opts.ScaleFactor < MinScaleFactor ∨ opts.ScaleFactor > MaxScaleFactor then
    some (.scale "ScaleFactor" opts.ScaleFactor MinScaleFactor MaxScaleFactor)
  else if opts.ShadowHorizontalOffset < MinShadowOffset ∨ opts.ShadowHorizontalOffset > MaxShadowOffset then
    some (.range "ShadowHorizontalOffset" opts.ShadowHorizontalOffset MinShadowOffset MaxShadowOffset)
  else if opts.ShadowVerticalOffset < MinShadowOffset ∨ opts.ShadowVerticalOffset > MaxShadowOffset then
    some (.range "ShadowVerticalOffset" opts.ShadowVerticalOffset MinShadowOffset MaxShadowOffset)
  else if opts.Alignment < LeftAlign ∨ opts.Alignment > RightAlign then
    some (.range "Alignment" opts.Alignment LeftAlign RightAlign)
  else if opts.GradientDirection < UpDown ∨ opts.GradientDirection > RightLeft then
    some (.range "GradientDirection" opts.GradientDirection UpDown RightLeft)
  else if opts.ShadowStyle < LightShade ∨ opts.ShadowStyle > DarkShade then
    some (.range "ShadowStyle" opts.ShadowStyle LightShade DarkShade)
  else if opts.ColorMode < SingleColor ∨ opts.ColorMode > Rainbow then
    some (.range "ColorMode" opts.ColorMode SingleColor Rainbow)
  else if ¬ isValidHexColor opts.TextColor then
    some (.color "TextColor" opts.TextColor)
  else if opts.UseGradient ∧ ¬ isValidHexColor opts.GradientColor then
    some (.color "GradientColor" opts.GradientColor)
  else if opts.ColorMode = Rainbow ∧ opts.RainbowColors.length > 0 then
    match firstBadRainbow opts.RainbowColors with
    | some p => some (.color ("RainbowColors[" ++ toString p.1 ++ "]") p.2)
    | none => none
  else
    none

/-- `ShadowStyleOption` from the source. -/
structure ShadowStyleOption where
  SName : String
  SChar : Char
  Hex : String
  deriving Repr, DecidableEq

/-- `shadowStyleOptions` from the source. -/
def shadowStyleOptions : List ShadowStyleOption :=
  [⟨"Light Shade", '░', ""⟩, ⟨"Medium Shade", '▒', ""⟩, ⟨"Dark Shade", '▓', ""⟩]

/-- Go `shadowStyleOptions[i]`: in-range access; the default is only used
where Go would panic (theorems about code paths reaching this indexing
carry hypotheses keeping `i` within `0..2`). -/
def shadowStyleAt (i : Int) : ShadowStyleOption :=
  (shadowStyleOptions.getD i.toNat ⟨"", ' ', ""⟩)

/-- `DescenderInfo` from the source. -/
structure DescenderInfo where
  HasDescender : Bool
  BaselineHeight : Int
  DescenderHeight : Int
  TotalHeight : Int
  VerticalOffset : Int
  deriving Repr, DecidableEq

/-! ## Kerning calculator (`kerning.go`) -/

/-- `maxRowLen` from the source: widest row (in runes) of a glyph. -/
def maxRowLen (rows : List String) : Int :=
  rows.foldl (fun acc r => max acc (r.length : Int)) 0

/-- One row of `normalizeGlyph`: pad a row shorter than `maxLen` with
spaces on the right. -/
def padRow (row : String) (maxLen : Int) : String :=
  if (row.length : Int) < maxLen then
    row ++ String.mk (List.replicate (maxLen - row.length).toNat ' ')
  else row

/-- `normalizeGlyph` from the source: bring a glyph to `height` rows, each
padded with spaces to the glyph's own maximum row width. -/
def normalizeGlyph (glyph : List String) (height : Nat) : List String :=
  let maxLen := glyph.foldl (fun acc r => max acc (r.length : Int)) 0
  (List.range height).map (fun i =>
    match glyph[i]? with
    | some row => padRow row maxLen
    | none => String.mk (List.replicate maxLen.toNat ' '))

/-- A visible pixel in `computeKerning`'s scans: not a space and not the
zero rune. -/
def inkChar (c : Char) : Bool :=
  c ≠ ' ' ∧ c ≠ '\x00'

/-- Rightmost visible-pixel index of a row, `-1` if the row is blank
(Go scans right-to-left; this left-to-right scan keeping the last hit
computes the same index). -/
def maxInkIdx : List Char → Int :=
  go 0 (-1)
where
  go (i : Nat) (acc : Int) : List Char → Int
    | [] => acc
    | c :: cs => go (i + 1) (if inkChar c then (i : Int) else acc) cs

/-- Leftmost visible-pixel index of a row, `-1` if the row is blank. -/
def minInkIdx : List Char → Int :=
  go 0
where
  go (i : Nat) : List Char → Int
    | [] => -1
    | c :: cs => if inkChar c then (i : Int) else go (i + 1) cs

/-- Loop state of `computeKerning`'s scan over the normalized rows. -/
structure KernState where
  minDist : Int
  hasOverlap : Bool
  maxAGlobal : Int
  minBGlobal : Int
  deriving Repr, DecidableEq

/-- Initial state of the scan (`minDist := 1000`, "effectively infinity"). -/
def kernInit : KernState := ⟨1000, false, -1, 1000⟩

/-- One iteration of `computeKerning`'s `for y` loop. -/
def kernStep (a b : List String) (widthA : Int) (st : KernState) (y : Nat) : KernState :=
  let maxA := maxInkIdx (a.getD y "").toList
  let minB := minInkIdx (b.getD y "").toList
  let maxAG := if maxA ≠ -1 ∧ maxA > st.maxAGlobal then maxA else st.maxAGlobal
  let minBG := if minB ≠ -1 ∧ minB < st.minBGlobal then minB else st.minBGlobal
  if maxA ≠ -1 ∧ minB ≠ -1 then
    let dist := (widthA + minB) - maxA
    { minDist := if dist < st.minDist then dist else st.minDist
      hasOverlap := true
      maxAGlobal := maxAG
      minBGlobal := minBG }
  else
    { st with maxAGlobal := maxAG, minBGlobal := minBG }

/-- The normalization height `computeKerning` uses for a glyph pair
(`h := max(len(glyphA), len(glyphB))`). -/
def kernHeight (glyphA glyphB : List String) : Nat :=
  max glyphA.length glyphB.length

/-- The left glyph as `computeKerning` normalizes it. -/
def kernNormA (glyphA glyphB : List String) : List String :=
  normalizeGlyph glyphA (kernHeight glyphA glyphB)

/-- The right glyph as `computeKerning` normalizes it. -/
def kernNormB (glyphA glyphB : List String) : List String :=
  normalizeGlyph glyphB (kernHeight glyphA glyphB)

/-- The left glyph's declared width as `computeKerning` computes it. -/
def kernWidthA (glyphA glyphB : List String) : Int :=
  maxRowLen (kernNormA glyphA glyphB)

/-- The state of `computeKerning`'s row scan after the whole loop. -/
def kernFold (glyphA glyphB : List String) : KernState :=
  (List.range (kernHeight glyphA glyphB)).foldl
    (kernStep (kernNormA glyphA glyphB) (kernNormB glyphA glyphB)
      (kernWidthA glyphA glyphB)) kernInit

/-- `computeKerning` from the source. -/
def computeKerning (glyphA glyphB : List String) : Int :=
  if glyphA.length = 0 ∨ glyphB.length = 0 then 0
  else if kernWidthA glyphA glyphB = 0 then 0
  else if (kernFold glyphA glyphB).hasOverlap then
    1 - (kernFold glyphA glyphB).minDist
  else if (kernFold glyphA glyphB).maxAGlobal ≠ -1 ∧ (kernFold glyphA glyphB).minBGlobal ≠ 1000 then
    1 - ((kernWidthA glyphA glyphB + (kernFold glyphA glyphB).minBGlobal) -
      (kernFold glyphA glyphB).maxAGlobal)
  else 0

/-! ## Spec-modelled collaborators

`scaleCharacter`, `analyzeDescenderProperties` and
`adjustCharacterForDescenders` belong to this repository but their source
file is not present (only their callers in `render.go` are).  They are
modelled from the specification. -/

/-- Nearest-style resampling of one axis: output position `j` selects
input position `⌊j / s⌋` (repetition for magnification, selection for
reduction). -/
def resampleIdx (s : ℚ) (j : Nat) : Nat :=
  (goTrunc (qdiv (j : ℚ) s)).toNat

/-- Modelled from the spec: `scaleCharacter` (the Glyph Resolver's scaling
step, spec section 4.1) is missing from the sources.  "Scale factor 1.0 is
identity.  Other factors resample each bitmap row by nearest-style
character repetition/selection per axis (horizontal: repeat or select
columns to the target width ratio; vertical: repeat or select rows to the
target height ratio), preserving which block-drawing character occupies
each resulting cell."  Ratios are always integral (0.5, 1, 2, 4).  Every
theorem below evaluates this function only at scale factor 1, where the
spec fixes it to the identity (up to the blank-row bookkeeping the callers
do themselves). -/
def scaleCharacter (bitmapLines : List String) (scaleFactor : ℚ) : List String :=
  if scaleFactor = 1 ∨ scaleFactor ≤ 0 then bitmapLines
  else
    let outRows := (goTrunc (qmul (bitmapLines.length : ℚ) scaleFactor)).toNat
    (List.range outRows).map (fun j =>
      let row := (bitmapLines.getD (resampleIdx scaleFactor j) "").toList
      let outCols := (goTrunc (qmul (row.length : ℚ) scaleFactor)).toNat
      String.mk ((List.range outCols).map (fun i => row.getD (resampleIdx scaleFactor i) ' ')))

/-- Modelled from the spec: `analyzeDescenderProperties` is missing from
the sources.  The spec (sections 3 and 4.1) describes `DescenderInfo` as
available only for characters whose visual ink extends below a shared
baseline and otherwise prescribes the centering fallback implemented by
the caller; it gives no operational rule for establishing the baseline
beyond naming the glyph pair used.  We model the conservative case in
which no character is flagged as a descender (the info map has no
entries), so the caller always takes its documented fallback path.  All
concrete fonts used in the theorems below have glyphs of equal height
with no ink below the common bottom row, for which any reading of the
spec yields no descender flags. -/
def analyzeDescenderProperties (_fontData : FontData) (_scaleFactor : ℚ) :
    List (String × DescenderInfo) :=
  []

/-- Modelled from the spec: `adjustCharacterForDescenders` is missing from
the sources.  Per spec section 3 the stored `VerticalOffset` is "the
corresponding whole-line-height vertical offset to apply when laying the
glyph into a fixed-height row stack", so the adjustment prepends that many
blank rows (of the glyph's own width).  With the descender map modelled as
empty this function is never reached. -/
def adjustCharacterForDescenders (bitmapLines : List String)
    (info : DescenderInfo) (_maxCharHeight : Int) : List String :=
  let w := maxRowLen bitmapLines
  List.replicate info.VerticalOffset.toNat (String.mk (List.replicate w.toNat ' ')) ++ bitmapLines

/-! ## Renderer (`render.go`): small helpers -/

/-- `DefaultRainbowColors` from the source. -/
def DefaultRainbowColors : List String :=
  ["#FF0000", "#FF7F00", "#FFFF00", "#00FF00", "#00FFFF", "#0000FF", "#8B00FF"]

/-- `hexCharToInt` from the source. -/
def hexCharToInt (c : Char) : Int :=
  if '0' ≤ c ∧ c ≤ '9' then (c.toNat : Int) - ('0'.toNat : Int)
  else if 'a' ≤ c ∧ c ≤ 'f' then (c.toNat : Int) - ('a'.toNat : Int) + 10
  else if 'A' ≤ c ∧ c ≤ 'F' then (c.toNat : Int) - ('A'.toNat : Int) + 10
  else 0

/-- `clamp` from the source. -/
def clamp (value minVal maxVal : Int) : Int :=
  max minVal (min value maxVal)

/-- `hexToRGB` from the source.  The Go function works on bytes; all color
strings produced or consumed by the engine are ASCII, where bytes and
runes coincide. -/
def hexToRGB (hex : String) : Int × Int × Int :=
  if hex = "" then (0, 0, 0)
  else
    let h := match hex.toList with
      | '#' :: rest => rest
      | l => l
    if h.length ≠ 6 then (0, 0, 0)
    else
      (clamp (hexCharToInt (h.getD 0 ' ') * 16 + hexCharToInt (h.getD 1 ' ')) 0 255,
       clamp (hexCharToInt (h.getD 2 ' ') * 16 + hexCharToInt (h.getD 3 ' ')) 0 255,
       clamp (hexCharToInt (h.getD 4 ' ') * 16 + hexCharToInt (h.getD 5 ' ')) 0 255)

/-- One uppercase hex digit. -/
def hexDigit (n : Nat) : Char :=
  if n < 10 then Char.ofNat ('0'.toNat + n)
  else Char.ofNat ('A'.toNat + (n - 10))

/-- Go `fmt.Sprintf("%02X", v)` for `0 ≤ v ≤ 255` (the only use site
clamps first). -/
def toHex2 (v : Int) : String :=
  String.mk [hexDigit (v.toNat / 16), hexDigit (v.toNat % 16)]

/-- `rgbToHex` from the source. -/
def rgbToHex (r g b : Int) : String :=
  "#" ++ toHex2 r ++ toHex2 g ++ toHex2 b

/-- After `ESC [`, consume `[0-9;]*` then `m`; `none` when the regexp
`\x1b\[[0-9;]*m` does not match at this position.  The remainder carries
its length bound for the termination argument of `stripANSIList`. -/
def takeAnsiBody : (l : List Char) → Option { r : List Char // r.length ≤ l.length }
  | [] => none
  | c :: cs =>
    if c = 'm' then some ⟨cs, Nat.le_succ _⟩
    else if c.isDigit ∨ c = ';' then
      match takeAnsiBody cs with
      | some r => some ⟨r.1, Nat.le_succ_of_le r.2⟩
      | none => none
    else none

/-- The scanning loop of `stripANSI`: remove every occurrence of
`\x1b\[[0-9;]*m` (the behaviour of `ansiRegex.ReplaceAllString(s, "")`).
The fuel is structural recursion bookkeeping only: every step strictly
shortens the list and the caller supplies the list's length, so fuel is
never exhausted. -/
def stripANSIGo : Nat → List Char → List Char
  | _, [] => []
  | 0, l => l
  | fuel + 1, c :: cs =>
    if c = '\x1b' then
      match cs with
      | '[' :: rest2 =>
        match takeAnsiBody rest2 with
        | some rem => stripANSIGo fuel rem.1
        | none => c :: stripANSIGo fuel ('[' :: rest2)
      | l2 => c :: stripANSIGo fuel l2
    else c :: stripANSIGo fuel cs

/-- `stripANSI`'s scan at full fuel. -/
def stripANSIList (l : List Char) : List Char :=
  stripANSIGo l.length l

/-- `stripANSI` from the source, on strings. -/
def stripANSI (s : String) : String :=
  String.mk (stripANSIList s.toList)

/-- `stripEmptyLines` from the source: remove blank lines from both the
top and the bottom (Go finds the first and last lines whose
`strings.TrimSpace` is non-empty and slices between them; if none exists
it returns an empty slice). -/
def stripEmptyLines (lines : List String) : List String :=
  ((lines.dropWhile goIsBlank).reverse.dropWhile goIsBlank).reverse

/-- `getWordBeforeSpaceSequence` from the source: the Go loops scan
backwards from `spaceIndex - 1`, first over spaces, then collecting the
non-space run; on lists this is reverse/dropWhile/takeWhile over the
prefix. -/
def getWordBeforeSpaceSequence (runes : List Char) (spaceIndex : Nat) : List Char :=
  (((runes.take spaceIndex).reverse.dropWhile (fun c => c = ' ')).takeWhile
    (fun c => c ≠ ' ')).reverse

/-- `getWordAfterSpaceSequence` from the source: scan forwards from
`spaceIndex + 1` over spaces, then collect the non-space run. -/
def getWordAfterSpaceSequence (runes : List Char) (spaceIndex : Nat) : List Char :=
  ((runes.drop (spaceIndex + 1)).dropWhile (fun c => c = ' ')).takeWhile (fun c => c ≠ ' ')

/-- `isSpaceAtWordBoundary` from the source.  (The Go `spaceIndex < 0`
guard is unrepresentable for a `Nat` index; every call site passes a
non-negative index.) -/
def isSpaceAtWordBoundary (runes : List Char) (spaceIndex : Nat) : Bool :=
  if spaceIndex ≥ runes.length ∨ runes.getD spaceIndex ' ' ≠ ' ' then false
  else
    (getWordBeforeSpaceSequence runes spaceIndex).length > 1 ∧
    (getWordAfterSpaceSequence runes spaceIndex).length > 1

/-! ## Renderer (`render.go`): the line composer `renderTextWithFont` -/

/-- The per-call caches of `renderTextWithFont` (`charWidths`,
`charHeights`, `charOffsets`, `adjustedBitmaps`, `kerningCache`). -/
structure RenderCaches where
  charWidths : List (String × Int)
  charHeights : List (String × Int)
  charOffsets : List (String × Int)
  adjustedBitmaps : List (String × List String)
  kerningCache : List ((String × String) × Int)
  deriving Repr, DecidableEq

/-- All caches empty. -/
def emptyCaches : RenderCaches := ⟨[], [], [], [], []⟩

/-- `maxCharHeight` as computed at the top of `renderTextWithFont`: the
tallest scaled glyph, then raised to any height demanded by descender
info (`info.TotalHeight + info.VerticalOffset`). -/
def fontMaxCharHeight (fd : FontData) (scaleFactor : ℚ)
    (descenderInfo : List (String × DescenderInfo)) : Int :=
  descenderInfo.foldl (fun acc p => max acc (p.2.TotalHeight + p.2.VerticalOffset))
    (fd.chars.foldl (fun acc p => max acc ((scaleCharacter p.2 scaleFactor).length : Int)) 0)

/-- `defaultMissingCharWidth` as computed in `renderTextWithFont`: the
width of the font's space character if defined and non-empty, else the
width of the first of `x`, `M`, `!` present with a non-empty bitmap, else
4. -/
def defaultMissingCharWidth (fd : FontData) : Int :=
  let fromChar := fun (c : String) =>
    match assocFind fd.chars c with
    | some rows => if rows.length > 0 then some (((rows.getD 0 "").length : Int)) else none
    | none => none
  match fromChar " " with
  | some w => w
  | none => ((["x", "M", "!"].filterMap fromChar).headD 4)

/-- The cache entries for one character (the body of the
`if _, exists := charWidths[charStr]; !exists` block in
`renderTextWithFont`). -/
def cacheChar (fd : FontData) (scaleFactor : ℚ)
    (descenderInfo : List (String × DescenderInfo)) (maxCharHeight : Int)
    (dmw : Int) (cs : RenderCaches) (charStr : String) : RenderCaches :=
  if (assocFind cs.charWidths charStr).isSome then cs
  else if charStr = " " then
    -- manual space: 0.5 px wide, `int(math.Ceil(0.5)) = 1`
    { cs with
      charWidths := (charStr, 1) :: cs.charWidths
      charHeights := (charStr, maxCharHeight) :: cs.charHeights
      charOffsets := (charStr, 0) :: cs.charOffsets
      adjustedBitmaps := (charStr, [" "]) :: cs.adjustedBitmaps }
  else
    match assocFind fd.chars charStr with
    | some bitmapLines =>
      let scaled := scaleCharacter bitmapLines scaleFactor
      let filtered := scaled.filter (fun l => l ≠ "")
      if filtered = [] then
        { cs with
          charWidths := (charStr, 1) :: cs.charWidths
          charHeights := (charStr, maxCharHeight) :: cs.charHeights
          charOffsets := (charStr, 0) :: cs.charOffsets
          adjustedBitmaps := (charStr, [" "]) :: cs.adjustedBitmaps }
      else
        match assocFind descenderInfo charStr with
        | some info =>
          let adjusted := adjustCharacterForDescenders filtered info maxCharHeight
          { cs with
            charWidths := (charStr, maxRowLen adjusted) :: cs.charWidths
            charHeights := (charStr, (adjusted.length : Int)) :: cs.charHeights
            charOffsets := (charStr, 0) :: cs.charOffsets
            adjustedBitmaps := (charStr, adjusted) :: cs.adjustedBitmaps }
        | none =>
          { cs with
            charWidths := (charStr, maxRowLen filtered) :: cs.charWidths
            charHeights := (charStr, (filtered.length : Int)) :: cs.charHeights
            charOffsets := (charStr,
              if (filtered.length : Int) < maxCharHeight then
                (maxCharHeight - filtered.length).tdiv 2
              else 0) :: cs.charOffsets
            adjustedBitmaps := (charStr, filtered) :: cs.adjustedBitmaps }
    | none =>
      { cs with
        charWidths := (charStr, dmw) :: cs.charWidths
        charHeights := (charStr, maxCharHeight) :: cs.charHeights
        charOffsets := (charStr, 0) :: cs.charOffsets
        adjustedBitmaps := (charStr, [String.mk (List.replicate dmw.toNat ' ')]) :: cs.adjustedBitmaps }

/-- The kerning-cache entry for one adjacent pair (the
`if i < len(runes)-1` block in `renderTextWithFont`). -/
def cachePair (cs : RenderCaches) (charStr nextCharStr : String) : RenderCaches :=
  if (assocFind2 cs.kerningCache (charStr, nextCharStr)).isSome then cs
  else
    let v :=
      if charStr = " " ∨ nextCharStr = " " then 0
      else
        match assocFind cs.adjustedBitmaps charStr, assocFind cs.adjustedBitmaps nextCharStr with
        | some leftBitmap, some rightBitmap => computeKerning leftBitmap rightBitmap
        | _, _ => 0
    { cs with kerningCache := ((charStr, nextCharStr), v) :: cs.kerningCache }

/-- The cache-building loop of `renderTextWithFont` over the text's
runes (with the one-rune lookahead for kerning pairs). -/
def buildCaches (fd : FontData) (scaleFactor : ℚ)
    (descenderInfo : List (String × DescenderInfo)) (maxCharHeight : Int)
    (dmw : Int) (runes : List Char) : RenderCaches :=
  (List.range runes.length).foldl
    (fun cs i =>
      let charStr := String.mk [runes.getD i ' ']
      let cs2 := cacheChar fd scaleFactor descenderInfo maxCharHeight dmw cs charStr
      if i + 1 < runes.length then
        cachePair cs2 charStr (String.mk [runes.getD (i + 1) ' '])
      else cs2)
    emptyCaches

/-- `prevCharTotalAdvance` of `renderTextWithFont`'s first pass: the
advance from character `idx - 1` to character `idx` on output row `i`
(`idx ≥ 1`).  A preceding space advances by `0.5 + wordSpacing` at a word
boundary and by exactly `0.5` otherwise; any other predecessor advances
by its width plus kerning plus the base character spacing plus the
odd-height-difference half-pixel correction. -/
def charAdvance (cs : RenderCaches) (runes : List Char) (baseCharSpacing : Int)
    (wordSpacing : ℚ) (i : Nat) (idx : Nat) : ℚ :=
  let prevCharStr := String.mk [runes.getD (idx - 1) ' ']
  let charStr := String.mk [runes.getD idx ' ']
  if prevCharStr = " " then
    if isSpaceAtWordBoundary runes (idx - 1) then qadd qhalf wordSpacing else qhalf
  else
    let w := assocFindD cs.charWidths prevCharStr 0
    let kern := assocFind2D cs.kerningCache (prevCharStr, charStr) 0
    let hCur := assocFindD cs.charHeights charStr 0
    let heightDiff := assocFindD cs.charHeights prevCharStr 0 - hCur
    let halfAdj : ℚ := if heightDiff.tmod 2 ≠ 0 ∧ (i : Int) ≥ hCur then qhalf else 0
    if baseCharSpacing = 0 then qadd (qadd (w : ℚ) (kern : ℚ)) halfAdj
    else qadd (qadd (qadd (w : ℚ) (kern : ℚ)) (baseCharSpacing : ℚ)) halfAdj

/-- `charStartPositions[idx]` of `renderTextWithFont`'s first pass on
output row `i`. -/
def charStartPos (cs : RenderCaches) (runes : List Char) (baseCharSpacing : Int)
    (wordSpacing : ℚ) (i : Nat) : Nat → ℚ
  | 0 => 0
  | idx + 1 =>
    qadd (charStartPos cs runes baseCharSpacing wordSpacing i idx)
      (charAdvance cs runes baseCharSpacing wordSpacing i (idx + 1))

/-- The bitmap fragment character `idx` contributes to output row `i`
(second pass of `renderTextWithFont`). -/
def fragmentFor (cs : RenderCaches) (runes : List Char) (wordSpacing : ℚ)
    (i : Nat) (idx : Nat) : String :=
  let charStr := String.mk [runes.getD idx ' ']
  if charStr = " " then
    let spaceWidth : ℚ := if isSpaceAtWordBoundary runes idx then qadd qhalf wordSpacing else qhalf
    String.mk (List.replicate (ratCeil spaceWidth).toNat ' ')
  else
    match assocFind cs.adjustedBitmaps charStr with
    | some adjustedBitmap =>
      if i < adjustedBitmap.length then adjustedBitmap.getD i "" else ""
    | none => String.mk (List.replicate (assocFindD cs.charWidths charStr 0).toNat ' ')

/-- The `for len(lineRunes) < requiredLength` extension loop: pad the row
buffer with spaces up to `required` cells. -/
def extendTo (l : List Char) (required : Int) : List Char :=
  if (l.length : Int) < required then l ++ List.replicate (required - l.length).toNat ' ' else l

/-- The fragment-placement loop of `renderTextWithFont`: write fragment
characters into the row buffer starting at column `x`, skipping
out-of-bounds cells, where a cell is written iff the fragment character
is not a space or the buffer cell still holds a space. -/
def writeFrag (l : List Char) (x : Int) : List Char → List Char
  | [] => l
  | fragRune :: rest =>
    let l2 :=
      if 0 ≤ x ∧ x < (l.length : Int) then
        if fragRune ≠ ' ' ∨ l.getD x.toNat ' ' = ' ' then l.set x.toNat fragRune else l
      else l
    writeFrag l2 (x + 1) rest

/-- One character of `renderTextWithFont`'s second (placement) pass:
state is the row buffer plus the cumulative rounding error. -/
def renderRowStep (cs : RenderCaches) (runes : List Char) (baseCharSpacing : Int)
    (wordSpacing : ℚ) (i : Nat) (st : List Char × ℚ) (idx : Nat) : List Char × ℚ :=
  let currentXOffset := qadd (charStartPos cs runes baseCharSpacing wordSpacing i idx) st.2
  let fragment := (fragmentFor cs runes wordSpacing i idx).toList
  let renderXOffset := goRound currentXOffset
  let cumulativeError := qadd st.2 (qsub currentXOffset (renderXOffset : ℚ))
  let extended := extendTo st.1 (renderXOffset + fragment.length)
  (writeFrag extended renderXOffset fragment, cumulativeError)

/-- Output row `i` of `renderTextWithFont`: run the placement pass over
all characters and trim trailing spaces. -/
def renderRow (cs : RenderCaches) (runes : List Char) (baseCharSpacing : Int)
    (wordSpacing : ℚ) (i : Nat) : String :=
  rtrim (String.mk
    ((List.range runes.length).foldl (renderRowStep cs runes baseCharSpacing wordSpacing i)
      ([], 0)).1)

/-- `renderTextWithFont` from the source (the line composer). -/
def renderTextWithFont (text : String) (fontData : FontData) (baseCharSpacing : Int)
    (wordSpacing : ℚ) (scaleFactor : ℚ) : List String :=
  if text = "" then []
  else
    let descenderInfo := analyzeDescenderProperties fontData scaleFactor
    let maxCharHeight := fontMaxCharHeight fontData scaleFactor descenderInfo
    if maxCharHeight = 0 then ["Font has no character data"]
    else
      let dmw := defaultMissingCharWidth fontData
      let runes := text.toList
      let cs := buildCaches fontData scaleFactor descenderInfo maxCharHeight dmw runes
      (List.range maxCharHeight.toNat).map (renderRow cs runes baseCharSpacing wordSpacing)

/-! ## Renderer (`render.go`): half-pixel detection, alignment, styling -/

/-- `DetectHalfPixelUsage` from the source: true iff some character of
`text`, after scaling, contains an upper-half-block or lower-half-block
character in its bitmap. -/
def DetectHalfPixelUsage (text : String) (fontData : FontData) (scaleFactor : ℚ) : Bool :=
  if text = "" then false
  else
    text.toList.any (fun r =>
      match assocFind fontData.chars (String.mk [r]) with
      | some bitmapLines =>
        (scaleCharacter bitmapLines scaleFactor).any
          (fun line => line.toList.any (fun c => c = '▀' ∨ c = '▄'))
      | none => false)

/-- `applyAlignmentToTextLine` from the source. -/
def applyAlignmentToTextLine (lineRendered : List String) (maxTextLineWidth : Int)
    (alignment : Int) : List String :=
  if lineRendered.length = 0 then lineRendered
  else
    let lineWidth := lineRendered.foldl (fun acc row => max acc ((stripANSI row).length : Int)) 0
    if lineWidth ≥ maxTextLineWidth then lineRendered
    else
      let leftPadding : Int :=
        if alignment = LeftAlign then 0
        else if alignment = CenterAlign then (maxTextLineWidth - lineWidth).tdiv 2
        else if alignment = RightAlign then maxTextLineWidth - lineWidth
        else 0
      lineRendered.map (fun row =>
        let rowWidth := ((stripANSI row).length : Int)
        let aligned := String.mk (List.replicate leftPadding.toNat ' ') ++ row
        let rightPad := maxTextLineWidth - rowWidth - leftPadding
        if rightPad > 0 then aligned ++ String.mk (List.replicate rightPad.toNat ' ')
        else aligned)

/-- The `canvasCell` record of `applyStylingAndShadow`: a character, a
main-text/shadow tag, and the original (pre-shadow) coordinates used for
gradient and rainbow math. -/
structure CanvasCell where
  cchar : Char
  isMain : Bool
  lineIdx : Int
  charIdx : Int
  deriving Repr, DecidableEq

/-- The untouched canvas cell (`{char: ' '}`). -/
def blankCell : CanvasCell := ⟨' ', false, 0, 0⟩

/-- Write one cell at canvas coordinates `(ty, tx)` with the source's
bounds check. -/
def canvasSet (canvas : List (List CanvasCell)) (cw ch : Int) (tx ty : Int)
    (cell : CanvasCell) : List (List CanvasCell) :=
  if 0 ≤ tx ∧ tx < cw ∧ 0 ≤ ty ∧ ty < ch then
    canvas.set ty.toNat ((canvas.getD ty.toNat []).set tx.toNat cell)
  else canvas

/-- One stamping pass over the plain block (used for both the shadow pass
and the main pass): every non-space character of the block is stamped at
its offset position, carrying its original row/column. -/
def stampPass (canvas : List (List CanvasCell)) (plainBlock : List String)
    (offX offY : Int) (charOf : Char → Char) (mainFlag : Bool)
    (cw ch : Int) : List (List CanvasCell) :=
  plainBlock.enum.foldl
    (fun cv yline =>
      yline.2.toList.enum.foldl
        (fun cv2 xr =>
          if xr.2 ≠ ' ' then
            canvasSet cv2 cw ch (offX + xr.1) (offY + yline.1)
              ⟨charOf xr.2, mainFlag, (yline.1 : Int), (xr.1 : Int)⟩
          else cv2)
        cv)
    canvas

/-- The color-resolution context of `applyStylingAndShadow` (everything
the per-cell color choice depends on). -/
structure StyleCtx where
  colorMode : Int
  rainbowColors : List String
  startColorHex : String
  endColorHex : String
  shadowColorForStyle : String
  gradientDirection : Int
  rainbowFrame : Int
  rainbowSpeed : Int
  blockHeight : Int
  canvasWidth : Int
  deriving Repr, DecidableEq

/-- Per-cell color resolution of `applyStylingAndShadow`: rainbow (main
cells only), gradient (blend factor from original row or canvas column),
or solid (main color vs shadow style color). -/
def resolveCellColor (ctx : StyleCtx) (cell : CanvasCell) (x : Nat) : String :=
  if ctx.colorMode = Rainbow ∧ cell.isMain then
    let frameOffset : Int :=
      if ctx.rainbowSpeed > 0 then ctx.rainbowFrame.tdiv ctx.rainbowSpeed else 0
    let colorIdx := (cell.charIdx + cell.lineIdx + frameOffset).tmod (ctx.rainbowColors.length : Int)
    ctx.rainbowColors.getD colorIdx.toNat ""
  else if ctx.colorMode = Gradient then
    let s := hexToRGB ctx.startColorHex
    let e := hexToRGB ctx.endColorHex
    let factor : ℚ :=
      if ctx.gradientDirection = UpDown then
        (if ctx.blockHeight > 1 then (cell.lineIdx : ℚ) / ((ctx.blockHeight : ℚ) - 1) else 0)
      else if ctx.gradientDirection = DownUp then
        (if ctx.blockHeight > 1 then 1 - (cell.lineIdx : ℚ) / ((ctx.blockHeight : ℚ) - 1) else 0)
      else if ctx.gradientDirection = LeftRight ∨ ctx.gradientDirection = RightLeft then
        (let f0 : ℚ := if ctx.canvasWidth > 1 then (x : ℚ) / ((ctx.canvasWidth : ℚ) - 1) else 0
         if ctx.gradientDirection = RightLeft then 1 - f0 else f0)
      else 0
    let r := goTrunc ((s.1 : ℚ) + factor * ((e.1 - s.1 : Int) : ℚ))
    let g := goTrunc ((s.2.1 : ℚ) + factor * ((e.2.1 - s.2.1 : Int) : ℚ))
    let b := goTrunc ((s.2.2 : ℚ) + factor * ((e.2.2 - s.2.2 : Int) : ℚ))
    rgbToHex (clamp r 0 255) (clamp g 0 255) (clamp b 0 255)
  else if cell.isMain then ctx.startColorHex
  else ctx.shadowColorForStyle

/-- The exact output fragment for one colored cell:
`fmt.Sprintf("\x1b[38;2;%d;%d;%dm%s\x1b[0m", r, g, b, char)`. -/
def emitCell (r g b : Int) (c : Char) : String :=
  "\x1b[38;2;" ++ toString r ++ ";" ++ toString g ++ ";" ++ toString b ++ "m" ++
    String.mk [c] ++ "\x1b[0m"

/-- One canvas cell as emitted: spaces stay bare, anything else is
wrapped in the 24-bit foreground escape and a reset. -/
def styledCell (ctx : StyleCtx) (cell : CanvasCell) (x : Nat) : String :=
  if cell.cchar = ' ' then " "
  else
    let rgb := hexToRGB (resolveCellColor ctx cell x)
    emitCell rgb.1 rgb.2.1 rgb.2.2 cell.cchar

/-- The builder loop for one output row: concatenate the emitted cells
left to right (`x` is the canvas column of the first cell). -/
def emitRow (ctx : StyleCtx) (x : Nat) : List CanvasCell → String
  | [] => ""
  | c :: cs => styledCell ctx c x ++ emitRow ctx (x + 1) cs

/-- `shadowPixels` in `applyStylingAndShadow`: the horizontal shadow
offset, or 0 with shadow disabled. -/
def shadowPixelsOf (o : RenderOptions) : Int :=
  if o.ShadowEnabled then o.ShadowHorizontalOffset else 0

/-- `verticalShadowPixels` in `applyStylingAndShadow`. -/
def verticalShadowPixelsOf (o : RenderOptions) : Int :=
  if o.ShadowEnabled then o.ShadowVerticalOffset else 0

/-- `shadowChar` in `applyStylingAndShadow` (the Go zero rune with shadow
disabled, where it is never used). -/
def shadowCharOf (o : RenderOptions) : Char :=
  if o.ShadowEnabled then (shadowStyleAt o.ShadowStyle).SChar else '\x00'

/-- The color-mode resolution of `applyStylingAndShadow`: the legacy
`UseGradient` flag upgrades `SingleColor` to `Gradient` when a distinct
gradient color is supplied. -/
def colorModeOf (o : RenderOptions) : Int :=
  if o.ColorMode = SingleColor ∧ o.UseGradient ∧ o.GradientColor ≠ o.TextColor then Gradient
  else o.ColorMode

/-- The rainbow palette `applyStylingAndShadow` uses: the caller's colors
when supplied, else the built-in seven-color default. -/
def rainbowColorsOf (o : RenderOptions) : List String :=
  if colorModeOf o = Rainbow then
    (if o.RainbowColors.length > 0 then o.RainbowColors else DefaultRainbowColors)
  else []

/-- `shadowColorForStyle` in `applyStylingAndShadow`: the style's own hex
color if it defines one, else the primary text color. -/
def shadowColorForStyleOf (o : RenderOptions) : String :=
  if (shadowStyleAt o.ShadowStyle).Hex ≠ "" then (shadowStyleAt o.ShadowStyle).Hex
  else o.TextColor

/-- `blockWidth` in `applyStylingAndShadow`. -/
def blockWidthOf (pb : List String) : Int :=
  pb.foldl (fun acc line => max acc (line.length : Int)) 0

/-- `canvasMinX` in `applyStylingAndShadow`. -/
def canvasMinXOf (o : RenderOptions) : Int :=
  if shadowPixelsOf o < 0 then shadowPixelsOf o else 0

/-- `canvasMaxX` in `applyStylingAndShadow`. -/
def canvasMaxXOf (pb : List String) (o : RenderOptions) : Int :=
  if shadowPixelsOf o > 0 then blockWidthOf pb + shadowPixelsOf o else blockWidthOf pb

/-- `canvasMinY` in `applyStylingAndShadow`. -/
def canvasMinYOf (o : RenderOptions) : Int :=
  if verticalShadowPixelsOf o < 0 then verticalShadowPixelsOf o else 0

/-- `canvasMaxY` in `applyStylingAndShadow`. -/
def canvasMaxYOf (pb : List String) (o : RenderOptions) : Int :=
  if verticalShadowPixelsOf o > 0 then (pb.length : Int) + verticalShadowPixelsOf o
  else (pb.length : Int)

/-- `canvasWidth` in `applyStylingAndShadow`. -/
def canvasWidthOf (pb : List String) (o : RenderOptions) : Int :=
  canvasMaxXOf pb o - canvasMinXOf o

/-- `canvasHeight` in `applyStylingAndShadow`. -/
def canvasHeightOf (pb : List String) (o : RenderOptions) : Int :=
  canvasMaxYOf pb o - canvasMinYOf o

/-- The color-resolution context `applyStylingAndShadow` sets up. -/
def styleCtxOf (pb : List String) (o : RenderOptions) : StyleCtx :=
  ⟨colorModeOf o, rainbowColorsOf o, o.TextColor,
   (if colorModeOf o = Gradient then o.GradientColor else ""),
   shadowColorForStyleOf o, o.GradientDirection, o.RainbowFrame, o.RainbowSpeed,
   (pb.length : Int), canvasWidthOf pb o⟩

/-- The canvas after the blank initialization, the shadow pass (when
shadow is enabled) and the main pass of `applyStylingAndShadow`. -/
def canvasOf (pb : List String) (o : RenderOptions) : List (List CanvasCell) :=
  let canvas0 : List (List CanvasCell) :=
    List.replicate (canvasHeightOf pb o).toNat
      (List.replicate (canvasWidthOf pb o).toNat blankCell)
  let canvas1 :=
    if o.ShadowEnabled then
      stampPass canvas0 pb (-canvasMinXOf o + shadowPixelsOf o)
        (-canvasMinYOf o + verticalShadowPixelsOf o)
        (fun _ => shadowCharOf o) false (canvasWidthOf pb o) (canvasHeightOf pb o)
    else canvas0
  stampPass canvas1 pb (-canvasMinXOf o) (-canvasMinYOf o) (fun r => r) true
    (canvasWidthOf pb o) (canvasHeightOf pb o)

/-- `applyStylingAndShadow` from the source. -/
def applyStylingAndShadow (plainBlock : List String) (options : RenderOptions) : List String :=
  if plainBlock.length = 0 then plainBlock
  else
    (canvasOf plainBlock options).map
      (fun row => rtrim (emitRow (styleCtxOf plainBlock options) 0 row))

/-! ## Renderer (`render.go`): the exported `RenderTextWithFont` -/

/-- The shadow-suppression step at the top of `RenderTextWithFont`:
shadow enabled with a nonzero offset is force-disabled for this call when
the half-pixel check reports a conflict. -/
def shadowSuppress (text : String) (fd : FontData) (opts : RenderOptions) : RenderOptions :=
  if opts.ShadowEnabled ∧ (opts.ShadowHorizontalOffset ≠ 0 ∨ opts.ShadowVerticalOffset ≠ 0) then
    if DetectHalfPixelUsage text fd opts.ScaleFactor then { opts with ShadowEnabled := false }
    else opts
  else opts

/-- The first pass of `RenderTextWithFont`: render each text line (an
empty input line yields the marker block `[""]`) and track the maximum
ANSI-stripped width over the rendered rows. -/
def firstPass (fd : FontData) (opts : RenderOptions) (textLines : List String) :
    List (List String) × Int :=
  textLines.foldl
    (fun acc line =>
      if line = "" then (acc.1 ++ [[""]], acc.2)
      else
        let lineRendered := stripEmptyLines
          (renderTextWithFont line fd opts.CharSpacing (opts.WordSpacing : ℚ) opts.ScaleFactor)
        let lineWidth := lineRendered.foldl (fun a row => max a ((stripANSI row).length : Int)) 0
        (acc.1 ++ [lineRendered], max acc.2 lineWidth))
    ([], 0)

/-- The assembly loop of `RenderTextWithFont`'s second pass, abstracted
over the per-block processing `f` (alignment plus styling): state is the
running index and the rows accumulated so far.  A marker block `[""]`
(an explicitly empty input line) appends one blank row when its index is
positive; any other block is processed with `f`, preceded by
`lineSpacing` blank rows when its index is positive and rows have
already been accumulated. -/
def assembleLoopGo (f : List String → List String) (lineSpacing : Int) :
    Nat → List String → List (List String) → List String
  | _, acc, [] => acc
  | i, acc, b :: rest =>
    if b = [""] then
      assembleLoopGo f lineSpacing (i + 1) (if i > 0 then acc ++ [""] else acc) rest
    else
      let finalBlock := f b
      let acc2 :=
        if i > 0 ∧ acc.length > 0 then acc ++ List.replicate lineSpacing.toNat ""
        else acc
      assembleLoopGo f lineSpacing (i + 1) (acc2 ++ finalBlock) rest

/-- The assembly loop started on the first block. -/
def assembleLoop (f : List String → List String) (lineSpacing : Int)
    (blocks : List (List String)) : List String :=
  assembleLoopGo f lineSpacing 0 [] blocks

/-- The final pass of `RenderTextWithFont`: right-pad every row with
spaces to the global maximum ANSI-stripped width. -/
def padToMaxWidth (lines : List String) : List String :=
  let maxWidth := lines.foldl (fun acc line => max acc ((stripANSI line).length : Int)) 0
  lines.map (fun line =>
    let lw := ((stripANSI line).length : Int)
    if lw < maxWidth then line ++ String.mk (List.replicate (maxWidth - lw).toNat ' ')
    else line)

/-- `RenderTextWithFont` from the source. -/
def RenderTextWithFont (text : String) (fontData : FontData)
    (options : RenderOptions) : List String :=
  if text = "" then []
  else if fontData.Name = "" then []
  else if fontData.Characters = none then []
  else
    let opts := shadowSuppress text fontData options
    let textLines := splitLines text.toList
    let fp := firstPass fontData opts textLines
    let process := fun (b : List String) =>
      applyStylingAndShadow (applyAlignmentToTextLine b fp.2 opts.Alignment) opts
    padToMaxWidth (assembleLoop process opts.LineSpacing fp.1)

/-! ## Specification-side definitions

These definitions formalize the specification's wording independently of
the embedded source functions; the theorems below compare the two. -/

/-- Length of the leading run of non-space characters. -/
def leadRun : List Char → Nat
  | [] => 0
  | c :: cs => if c = ' ' then 0 else leadRun cs + 1

/-- Length of the first run of non-space characters after skipping any
leading spaces ("the contiguous run of non-space characters immediately
after, skipping over any run of consecutive spaces"). -/
def firstRunLen : List Char → Nat
  | [] => 0
  | c :: cs => if c = ' ' then firstRunLen cs else leadRun (c :: cs)

/-- Length of the last such run before a position: the first run of the
reversed prefix. -/
def lastRunLen (l : List Char) : Nat :=
  firstRunLen l.reverse

/-- Row `y` of the normalized glyph pair has visible ink in both glyphs
("ink on at least one common row after height normalization"). -/
def rowHasInkBoth (a b : List String) (y : Nat) : Prop :=
  maxInkIdx (a.getD y "").toList ≠ -1 ∧ minInkIdx (b.getD y "").toList ≠ -1

instance (a b : List String) (y : Nat) : Decidable (rowHasInkBoth a b y) := by
  unfold rowHasInkBoth; infer_instance

/-- The horizontal distance on row `y` from the left glyph's rightmost
ink column to the right glyph's leftmost ink column when the right glyph
is laid out immediately after the left glyph's declared width. -/
def kernRowDist (a b : List String) (widthA : Int) (y : Nat) : Int :=
  (widthA + minInkIdx (b.getD y "").toList) - maxInkIdx (a.getD y "").toList

/-- The specification's (amended) assembly of processed line-blocks,
tracking with a Boolean whether any output row has been emitted yet: a
marker block `[""]` (explicitly empty input line) contributes exactly one
blank row unless it is the first input line, which contributes none; any
other block contributes `lineSpacing` blank rows (when it is not the
first input line and rows were already emitted) followed by its processed
rows. -/
def specAssembleGo (f : List String → List String) (lineSpacing : Int) :
    Nat → Bool → List (List String) → List String
  | _, _, [] => []
  | i, emitted, b :: rest =>
    if b = [""] then
      (if i = 0 then [] else [""]) ++
        specAssembleGo f lineSpacing (i + 1) (emitted || decide (0 < i)) rest
    else
      (if 0 < i ∧ emitted = true then List.replicate lineSpacing.toNat "" else []) ++
        f b ++
        specAssembleGo f lineSpacing (i + 1) (emitted || decide (f b ≠ [])) rest

/-- The specification-side assembly, started at the first block with no
rows emitted. -/
def specAssemble (f : List String → List String) (lineSpacing : Int)
    (blocks : List (List String)) : List String :=
  specAssembleGo f lineSpacing 0 false blocks

/-- The output grammar of the styling compositor, from the spec's output
contract: a styled row is a sequence of cells, each either a bare space
or exactly one 24-bit foreground escape `ESC[38;2;R;G;Bm` followed by one
non-space character and the reset `ESC[0m`, with each color component in
`0..255`; nothing else occurs. -/
inductive StyledRow : List Char → Prop where
  | nil : StyledRow []
  | space (cs : List Char) : StyledRow cs → StyledRow (' ' :: cs)
  | colored (r g b : Int) (c : Char) (cs : List Char) :
      c ≠ ' ' → 0 ≤ r → r ≤ 255 → 0 ≤ g → g ≤ 255 → 0 ≤ b → b ≤ 255 →
      StyledRow cs →
      StyledRow ('\x1b' :: '[' :: '3' :: '8' :: ';' :: '2' :: ';' ::
        ((toString r).toList ++ ';' :: (toString g).toList ++ ';' :: (toString b).toList ++
          'm' :: c :: '\x1b' :: '[' :: '0' :: 'm' :: cs))

/-! ## Concrete fonts and options used by witnesses and counterexamples -/

/-- A font whose characters map is non-nil but has zero entries. -/
def fontEmptyMap : FontData := ⟨"font", "", "", some []⟩

/-- A font whose characters map is a Go `nil` map. -/
def fontNilMap : FontData := ⟨"font", "", "", none⟩

/-- A font with an empty display name but a usable character map. -/
def fontNoName : FontData := ⟨"", "auth", "lic", some [("A", ["█"])]⟩

/-- A one-character font. -/
def fontX : FontData := ⟨"f", "", "", some [("X", ["█"])]⟩

/-- A font containing an upper-half-block glyph (half-pixel conflict). -/
def fontHalf : FontData := ⟨"half", "", "", some [("H", ["▀"])]⟩

/-- Shadow enabled with a nonzero horizontal offset. -/
def optsShadow : RenderOptions :=
  { DefaultRenderOptions with ShadowEnabled := true, ShadowHorizontalOffset := 1 }

/-- A font staging an ink-on-ink overwrite during line composition:
`A` has a long top row and a short bottom row, `B` has bottom-row ink
only (kerned 5 columns leftward under `A`'s overhang), and `C` has ink on
both rows. -/
def fontOverlap : FontData :=
  ⟨"f", "", "", some [("A", ["██████", "█     "]), ("B", [" ", "█"]), ("C", ["▓", "▓"])]⟩

/-! ## Theorems -/

/-- Claim C10: if the font's `Name` field is the empty string,
`RenderTextWithFont` returns the empty sequence, for every text and every
options value — the display name gates whether any rendering happens. -/
theorem claim_C10_empty_name_gates_rendering (text : String) (fd : FontData)
    (opts : RenderOptions) (h : fd.Name = "") :
    RenderTextWithFont text fd opts = [] := by
  unfold RenderTextWithFont
  split_ifs <;> rfl

/-- Witness for C10: a font with an empty name, a non-empty character map
covering the (non-empty) text, still renders to the empty sequence. -/
theorem claim_C10_witness :
    fontNoName.Name = "" ∧ fontNoName.Characters = some [("A", ["█"])] ∧
      RenderTextWithFont "A" fontNoName DefaultRenderOptions = [] :=
  ⟨rfl, rfl, claim_C10_empty_name_gates_rendering "A" fontNoName DefaultRenderOptions rfl⟩

/-- Claim C1 (amended): rendering the empty string returns the empty
sequence for every font; a font whose characters map is `nil` renders
every text to the empty sequence; and a font whose characters map is
present with zero entries makes the maximum character height `0`, so for
every non-empty text the line composer returns, before any per-character
processing, the single message row `Font has no character data` (the
pipeline then styles that row into one non-empty output row — see the
counterexample). -/
theorem claim_C1_amended (text : String) (fd : FontData) (opts : RenderOptions) :
    RenderTextWithFont "" fd opts = [] ∧
      (fd.Characters = none → RenderTextWithFont text fd opts = []) ∧
      (fd.Characters = some [] → text ≠ "" → ∀ (cs : Int) (ws sf : ℚ),
        renderTextWithFont text fd cs ws sf = ["Font has no character data"]) := by
  refine ⟨rfl, ?_, ?_⟩
  · intro h
    unfold RenderTextWithFont
    split_ifs <;> rfl
  · intro h hne cs ws sf
    have hch : fd.chars = [] := by rw [FontData.chars, h]; rfl
    have hmax : fontMaxCharHeight fd sf (analyzeDescenderProperties fd sf) = 0 := by
      unfold fontMaxCharHeight analyzeDescenderProperties
      rw [hch]
      rfl
    unfold renderTextWithFont
    rw [if_neg hne]
    dsimp only
    rw [if_pos hmax]

/-- Witness for C1: the amended claim applied at concrete fonts — one
with a `nil` characters map and one with a present map holding zero
entries — each with a non-empty text. -/
theorem claim_C1_witness :
    RenderTextWithFont "" fontX DefaultRenderOptions = [] ∧
      RenderTextWithFont "A" fontNilMap DefaultRenderOptions = [] ∧
      renderTextWithFont "B" fontEmptyMap 2 0 1 = ["Font has no character data"] :=
  ⟨(claim_C1_amended "A" fontX DefaultRenderOptions).1,
   (claim_C1_amended "A" fontNilMap DefaultRenderOptions).2.1 rfl,
   (claim_C1_amended "B" fontEmptyMap DefaultRenderOptions).2.2 rfl (by decide) 2 0 1⟩

set_option maxRecDepth 40000 in
/-- Counterexample to C1 as stated: a font with a *non-nil* characters
map holding zero entries renders the non-empty text `"A"` not to the
empty sequence but to one row, and by the message mechanism: the line
composer's early return on maximum character height `0` yields the
message row `Font has no character data`, and stripping the styling from
the single final output row gives back exactly that message. -/
theorem claim_C1_counterexample :
    renderTextWithFont "A" fontEmptyMap 0 0 1 = ["Font has no character data"] ∧
      (RenderTextWithFont "A" fontEmptyMap DefaultRenderOptions).length = 1 ∧
      stripANSI ((RenderTextWithFont "A" fontEmptyMap DefaultRenderOptions).getD 0 "") =
        "Font has no character data" := by
  refine ⟨by decide, by decide, by decide⟩

/-- Claim C4: when shadow is enabled with a nonzero offset on either axis
and the half-pixel check reports a conflict for this text/font/scale,
rendering is string-for-string identical to rendering with shadow
disabled (the passed options value itself is a Go value parameter, so the
caller's copy is untouched). -/
theorem claim_C4_shadow_suppression (text : String) (fd : FontData)
    (opts : RenderOptions) (h1 : opts.ShadowEnabled = true)
    (h2 : opts.ShadowHorizontalOffset ≠ 0 ∨ opts.ShadowVerticalOffset ≠ 0)
    (h3 : DetectHalfPixelUsage text fd opts.ScaleFactor = true) :
    RenderTextWithFont text fd opts =
      RenderTextWithFont text fd { opts with ShadowEnabled := false } := by
  have e1 : shadowSuppress text fd opts = { opts with ShadowEnabled := false } := by
    unfold shadowSuppress
    rw [if_pos ⟨h1, h2⟩, if_pos h3]
  have e2 : shadowSuppress text fd { opts with ShadowEnabled := false } =
      { opts with ShadowEnabled := false } := by
    unfold shadowSuppress
    rw [if_neg]
    simp
  unfold RenderTextWithFont
  rw [e1, e2]

/-- Witness for C4: a half-block glyph at scale 1 with shadow enabled and
offset `(1,0)`; the half-pixel check fires and the two renders coincide. -/
theorem claim_C4_witness :
    optsShadow.ShadowEnabled = true ∧
      (optsShadow.ShadowHorizontalOffset ≠ 0 ∨ optsShadow.ShadowVerticalOffset ≠ 0) ∧
      DetectHalfPixelUsage "H" fontHalf optsShadow.ScaleFactor = true ∧
      RenderTextWithFont "H" fontHalf optsShadow =
        RenderTextWithFont "H" fontHalf { optsShadow with ShadowEnabled := false } :=
  ⟨rfl, Or.inl (by decide), by decide,
   claim_C4_shadow_suppression "H" fontHalf optsShadow rfl (Or.inl (by decide)) (by decide)⟩

/-- The assembly loop, started at any index and accumulator, equals the
specification-side assembly with the Boolean flag standing for "the
accumulator is non-empty". -/
theorem assembleLoopGo_spec (f : List String → List String) (ls : Int) :
    ∀ (rest : List (List String)) (i : Nat) (acc : List String),
      assembleLoopGo f ls i acc rest =
        acc ++ specAssembleGo f ls i (decide (acc ≠ [])) rest := by
  intro rest
  induction rest with
  | nil => intro i acc; simp [assembleLoopGo, specAssembleGo]
  | cons b bs ih =>
    intro i acc
    by_cases hb : b = [""]
    · rcases Nat.eq_zero_or_pos i with hi | hi
      · subst hi
        simp only [assembleLoopGo, specAssembleGo, hb, if_pos rfl, gt_iff_lt,
          Nat.lt_irrefl, if_false, if_pos]
        rw [ih]
        simp
      · have hi0 : i ≠ 0 := Nat.pos_iff_ne_zero.mp hi
        simp only [assembleLoopGo, specAssembleGo, hb, if_pos rfl, gt_iff_lt]
        rw [if_pos hi, if_neg hi0, ih]
        have : decide (acc ++ [""] ≠ []) = true := by simp
        rw [this]
        simp [hi]
    · simp only [assembleLoopGo, specAssembleGo, hb, if_neg, ite_false]
      rw [ih]
      by_cases hia : 0 < i ∧ acc ≠ []
      · have h1 : (i > 0 ∧ acc.length > 0) := ⟨hia.1, List.length_pos.mpr hia.2⟩
        rw [if_pos h1, if_pos (by simpa using hia)]
        have hne : decide (acc ++ List.replicate ls.toNat "" ++ f b ≠ []) =
            (decide (acc ≠ []) || decide (f b ≠ [])) := by
          simp [hia.2]
        simp only [List.append_assoc, hne]
        have hfl : (!decide (acc = [])) = true := by simp [hia.2]
        simp [hfl, hia.2]
      · have h1 : ¬ (i > 0 ∧ acc.length > 0) := by
          intro hc
          exact hia ⟨hc.1, by simpa using List.length_pos.mp hc.2⟩
        rw [if_neg h1, if_neg (by simpa using hia)]
        have hne : decide (acc ++ f b ≠ []) = (decide (acc ≠ []) || decide (f b ≠ [])) := by
          by_cases ha : acc = [] <;> simp [ha]
        simp [List.append_assoc, hne]

/-- Claim C8 (amended): the assembly of rendered line-blocks inserts
exactly `lineSpacing` fully-blank rows before a non-marker block whenever
it is not the first input line and rows have already been emitted (in
particular between consecutive non-empty line-blocks), and an explicitly
empty input line contributes exactly one blank row — except the first
input line, which contributes none. -/
theorem claim_C8_amended_assembly (f : List String → List String) (ls : Int)
    (blocks : List (List String)) :
    assembleLoop f ls blocks = specAssemble f ls blocks := by
  unfold assembleLoop specAssemble
  have := assembleLoopGo_spec f ls blocks 0 []
  simpa using this

/-- Counterexample to C8 as stated: for the input text `"\nX"` the first
input line is explicitly empty, yet the output is identical to rendering
`"X"` alone — a single row with no leading blank row, where the claim
demands that the empty line contribute exactly one blank output row. -/
theorem claim_C8_counterexample :
    RenderTextWithFont "\nX" fontX DefaultRenderOptions =
        RenderTextWithFont "X" fontX DefaultRenderOptions ∧
      (RenderTextWithFont "\nX" fontX DefaultRenderOptions).length = 1 := by
  constructor <;> decide

/-- One write of the placement loop preserves the buffer length. -/
theorem writeFrag_length (frag : List Char) :
    ∀ (l : List Char) (x : Int), (writeFrag l x frag).length = l.length := by
  induction frag with
  | nil => intro l x; rfl
  | cons fc fcs ih =>
    intro l x
    unfold writeFrag
    rw [ih]
    split_ifs <;> simp

/-- Claim C2 (amended): during fragment placement, a cell that already
holds a non-space character stays non-space, and it can only be changed
by a fragment cell that is itself non-space (landing exactly on it).
Equivalently: a later glyph's *space* never overwrites placed ink, while
a later glyph's *ink* is always written — even over earlier ink. -/
theorem claim_C2_amended_placement (frag : List Char) :
    ∀ (l : List Char) (x : Int) (p : Nat), p < l.length → l.getD p ' ' ≠ ' ' →
      (writeFrag l x frag).getD p ' ' ≠ ' ' ∧
        ((writeFrag l x frag).getD p ' ' ≠ l.getD p ' ' →
          ∃ j : Nat, j < frag.length ∧ x + j = p ∧ frag.getD j ' ' ≠ ' ') := by
  induction frag with
  | nil =>
    intro l x p hp hink
    exact ⟨hink, fun hch => absurd rfl hch⟩
  | cons fc fcs ih =>
    intro l x p hp hink
    unfold writeFrag
    set l2 := if 0 ≤ x ∧ x < (l.length : Int) then
        if fc ≠ ' ' ∨ l.getD x.toNat ' ' = ' ' then l.set x.toNat fc else l
      else l with hl2
    have hlen2 : l2.length = l.length := by
      rw [hl2]; split_ifs <;> simp
    have hcell : l2.getD p ' ' = l.getD p ' ' ∨
        (l2.getD p ' ' = fc ∧ fc ≠ ' ' ∧ 0 ≤ x ∧ x.toNat = p) := by
      rw [hl2]
      split_ifs with hb hw
      · by_cases hxp : x.toNat = p
        · subst hxp
          rcases hw with hw | hw
          · right
            refine ⟨?_, hw, hb.1, rfl⟩
            rw [List.getD_eq_getElem?_getD, List.getElem?_set_self]
            · simp
            · omega
          · exact absurd hw hink
        · left
          rw [List.getD_eq_getElem?_getD, List.getElem?_set_ne hxp, ← List.getD_eq_getElem?_getD]
      · exact Or.inl rfl
      · exact Or.inl rfl
    have hink2 : l2.getD p ' ' ≠ ' ' := by
      rcases hcell with hc | hc
      · rw [hc]; exact hink
      · rw [hc.1]; exact hc.2.1
    have hp2 : p < l2.length := by rw [hlen2]; exact hp
    obtain ⟨hfin, hch⟩ := ih l2 (x + 1) p hp2 hink2
    refine ⟨hfin, fun hchange => ?_⟩
    by_cases hsame : (writeFrag l2 (x + 1) fcs).getD p ' ' = l2.getD p ' '
    · -- the tail did not change the cell, so the head write did
      rw [hsame] at hchange
      rcases hcell with hc | hc
      · exact absurd hc hchange
      · refine ⟨0, by simp, ?_, ?_⟩
        · have h1 := hc.2.2.1
          have h2 := hc.2.2.2
          omega
        · simpa using hc.2.1
    · obtain ⟨j, hj, hxj, hjink⟩ := hch hsame
      refine ⟨j + 1, by simpa using Nat.succ_lt_succ hj, by omega, by simpa using hjink⟩

/-- Witness for the amended C2: a concrete buffer cell holding ink is
still ink after a space fragment passes over it, unchanged. -/
theorem claim_C2_witness :
    (0 : Nat) < ([ '█' ] : List Char).length ∧ ([ '█' ] : List Char).getD 0 ' ' ≠ ' ' ∧
      (writeFrag ['█'] 0 [' ']).getD 0 ' ' ≠ ' ' :=
  ⟨by decide, by decide,
   (claim_C2_amended_placement [' '] ['█'] 0 0 (by decide) (by decide)).1⟩

/-- Counterexample to C2 as stated: the placement rule lets a later
glyph's ink overwrite earlier ink.  First conjunct: the single write rule
replaces the buffer's `█` with the fragment's `▓`.  Remaining conjuncts:
a full line composition reaching that situation — in the font
`fontOverlap` with text `CBABC` and zero spacing, glyph `A` (placed at
column 2) paints `█` at row 0, column 4, and the final `C` (kerned to
column 4) then overwrites that cell, which ends as `▓` in the output. -/
theorem claim_C2_counterexample :
    writeFrag ['█'] 0 ['▓'] = ['▓'] ∧
      renderTextWithFont "CBABC" fontOverlap 0 0 1 = ["▓ ██▓███", "▓███▓"] ∧
      ((renderTextWithFont "CBABC" fontOverlap 0 0 1).getD 0 "").toList.getD 4 ' ' = '▓' := by
  refine ⟨by decide, by decide, by decide⟩



/-- `qadd` is ordinary rational addition. -/
theorem qadd_eq (a b : ℚ) : qadd a b = a + b :=
  (Rat.add_def' a b).symm

/-- `qhalf` is `1/2`. -/
theorem qhalf_eq : qhalf = 1/2 := by
  rw [qhalf, ← Rat.divInt_ofNat, Rat.divInt_eq_div]
  norm_num

/-- The leading non-space run measured by `takeWhile`. -/
theorem takeWhile_length_eq_leadRun (l : List Char) :
    (l.takeWhile (fun c => c ≠ ' ')).length = leadRun l := by
  induction l with
  | nil => rfl
  | cons c cs ih =>
    by_cases hc : c = ' '
    · simp [List.takeWhile_cons, leadRun, hc]
    · simp only [List.takeWhile_cons, leadRun, hc, decide_not]
      simp only [decide_not] at ih
      simp [hc, ih]

/-- The first non-space run after leading spaces equals `firstRunLen`. -/
theorem dropWhile_takeWhile_eq_firstRunLen (l : List Char) :
    ((l.dropWhile (fun c => c = ' ')).takeWhile (fun c => c ≠ ' ')).length = firstRunLen l := by
  induction l with
  | nil => rfl
  | cons c cs ih =>
    by_cases hc : c = ' '
    · simp only [List.dropWhile_cons, firstRunLen, hc]
      simpa using ih
    · simp only [List.dropWhile_cons, firstRunLen, hc]
      simp only [if_false]
      exact takeWhile_length_eq_leadRun (c :: cs)

/-- The word before a space (skipping spaces) has the length of the last non-space run of the prefix. -/
theorem getWordBefore_length (runes : List Char) (i : Nat) :
    (getWordBeforeSpaceSequence runes i).length = lastRunLen (runes.take i) := by
  unfold getWordBeforeSpaceSequence lastRunLen
  rw [List.length_reverse]
  exact dropWhile_takeWhile_eq_firstRunLen (runes.take i).reverse

/-- The word after a space (skipping spaces) has the length of the first non-space run of the suffix. -/
theorem getWordAfter_length (runes : List Char) (i : Nat) :
    (getWordAfterSpaceSequence runes i).length = firstRunLen (runes.drop (i + 1)) := by
  unfold getWordAfterSpaceSequence
  exact dropWhile_takeWhile_eq_firstRunLen (runes.drop (i + 1))

/-- Claim C6: a space is classified as a word boundary iff the contiguous
non-space runs immediately before and after it (skipping runs of spaces
in either direction) each have length greater than 1; and the advance the
line composer charges for a preceding space is `0.5 + wordSpacing` at a
word boundary and exactly `0.5` otherwise (so `a b` gets no word spacing
while `ab cd` does — see the examples in the file). -/
theorem claim_C6_word_boundary (runes : List Char) (i : Nat) (cs : RenderCaches)
    (bcs : Int) (ws : ℚ) (row idx : Nat) :
    (isSpaceAtWordBoundary runes i = true ↔
      (i < runes.length ∧ runes.getD i ' ' = ' ' ∧
        1 < lastRunLen (runes.take i) ∧ 1 < firstRunLen (runes.drop (i + 1)))) ∧
    (runes.getD (idx - 1) ' ' = ' ' →
      charAdvance cs runes bcs ws row idx =
        if isSpaceAtWordBoundary runes (idx - 1) then 1/2 + ws else 1/2) := by
  constructor
  · unfold isSpaceAtWordBoundary
    rw [← getWordBefore_length, ← getWordAfter_length]
    by_cases hb : i ≥ runes.length ∨ runes.getD i ' ' ≠ ' '
    · rw [if_pos hb]
      simp only [Bool.false_eq_true, false_iff]
      intro hc
      rcases hb with hb | hb
      · omega
      · exact hb hc.2.1
    · rw [if_neg hb]
      push_neg at hb
      constructor
      · intro hc
        simp only [decide_eq_true_eq] at hc
        exact ⟨by omega, hb.2, hc.1, hc.2⟩
      · intro hc
        simp only [decide_eq_true_eq]
        exact ⟨hc.2.2.1, hc.2.2.2⟩
  · intro hsp
    unfold charAdvance
    rw [hsp]
    have hs : (String.mk [' '] = " ") := rfl
    rw [if_pos hs]
    by_cases hwb : isSpaceAtWordBoundary runes (idx - 1)
    · rw [if_pos hwb, if_pos hwb, qadd_eq, qhalf_eq]
    · rw [if_neg hwb, if_neg hwb, qhalf_eq]

/-- The rightmost-ink scan returns its accumulator or an index within the scanned range. -/
theorem maxInkIdx_go_cases (l : List Char) : ∀ (i : Nat) (acc : Int),
    maxInkIdx.go i acc l = acc ∨
      ((i : Int) ≤ maxInkIdx.go i acc l ∧ maxInkIdx.go i acc l ≤ (i : Int) + l.length - 1) := by
  induction l with
  | nil => intro i acc; left; rfl
  | cons c cs ih =>
    intro i acc
    have hstep : maxInkIdx.go i acc (c :: cs) =
        maxInkIdx.go (i + 1) (if inkChar c then (i : Int) else acc) cs := rfl
    rw [hstep]
    rcases ih (i + 1) (if inkChar c then (i : Int) else acc) with h | h
    · rw [h]
      split_ifs with hc
      · right
        refine ⟨by omega, ?_⟩
        simp only [List.length_cons]
        push_cast
        omega
      · left; rfl
    · right
      refine ⟨by omega, ?_⟩
      simp only [List.length_cons] at h ⊢
      push_cast at h ⊢
      omega

/-- `maxInkIdx` is `-1` or a valid index of the row. -/
theorem maxInkIdx_cases (l : List Char) :
    maxInkIdx l = -1 ∨ (0 ≤ maxInkIdx l ∧ maxInkIdx l ≤ (l.length : Int) - 1) := by
  have := maxInkIdx_go_cases l 0 (-1)
  simpa [maxInkIdx] using this

/-- The leftmost-ink scan returns `-1` or an index at or after its start. -/
theorem minInkIdx_go_cases (l : List Char) : ∀ (i : Nat),
    minInkIdx.go i l = -1 ∨ (i : Int) ≤ minInkIdx.go i l := by
  induction l with
  | nil => intro i; left; rfl
  | cons c cs ih =>
    intro i
    have hstep : minInkIdx.go i (c :: cs) =
        if inkChar c then (i : Int) else minInkIdx.go (i + 1) cs := rfl
    rw [hstep]
    split_ifs with hc
    · right; omega
    · rcases ih (i + 1) with h | h
      · left; exact h
      · right; omega

/-- `minInkIdx` is `-1` or non-negative. -/
theorem minInkIdx_cases (l : List Char) :
    minInkIdx l = -1 ∨ 0 ≤ minInkIdx l := by
  have := minInkIdx_go_cases l 0
  simpa [minInkIdx] using this

/-- The width fold only grows its accumulator. -/
theorem rowLenFold_ge_init (rows : List String) : ∀ (acc : Int),
    acc ≤ rows.foldl (fun a r => max a (r.length : Int)) acc := by
  induction rows with
  | nil => intro acc; exact le_refl acc
  | cons r rs ih =>
    intro acc
    exact le_trans (le_max_left acc (r.length : Int)) (ih (max acc (r.length : Int)))

/-- The width fold dominates every row length. -/
theorem rowLenFold_ge_mem (rows : List String) : ∀ (acc : Int) (r : String), r ∈ rows →
    (r.length : Int) ≤ rows.foldl (fun a r => max a (r.length : Int)) acc := by
  induction rows with
  | nil => intro acc r hr; cases hr
  | cons r0 rs ih =>
    intro acc r hr
    rcases List.mem_cons.mp hr with h | h
    · subst h
      exact le_trans (le_max_right acc (r.length : Int)) (rowLenFold_ge_init rs _)
    · exact ih _ r h

/-- `maxRowLen` is non-negative. -/
theorem maxRowLen_nonneg (rows : List String) : 0 ≤ maxRowLen rows :=
  rowLenFold_ge_init rows 0

/-- Every (defaulted) row of a glyph is at most `maxRowLen` wide. -/
theorem maxRowLen_getD_le (rows : List String) (y : Nat) :
    (((rows.getD y "").length : Int)) ≤ maxRowLen rows := by
  by_cases hy : y < rows.length
  · have hmem : rows.getD y "" ∈ rows := by
      rw [List.getD_eq_getElem?_getD, List.getElem?_eq_getElem hy]
      exact List.getElem_mem hy
    exact rowLenFold_ge_mem rows 0 _ hmem
  · rw [List.getD_eq_default _ _ (by omega)]
    exact maxRowLen_nonneg rows

/-- On a row where both glyphs have ink, the declared-width distance is at least 1. -/
theorem kernRowDist_ge_one (a b : List String) (w : Int) (y : Nat)
    (hw : ∀ z : Nat, (((a.getD z "").length : Int)) ≤ w)
    (hc : rowHasInkBoth a b y) : 1 ≤ kernRowDist a b w y := by
  unfold kernRowDist
  have hA := maxInkIdx_cases (a.getD y "").toList
  have hB := minInkIdx_cases (b.getD y "").toList
  have hlen : ((a.getD y "").toList.length : Int) = ((a.getD y "").length : Int) := rfl
  rcases hA with hA | hA
  · exact absurd hA hc.1
  · rcases hB with hB | hB
    · exact absurd hB hc.2
    · have := hw y
      rw [← hlen] at this
      omega

/-- One `computeKerning` scan step, with its lets reduced. -/
theorem kernStep_def (a b : List String) (w : Int) (st : KernState) (y : Nat) :
    kernStep a b w st y =
      if rowHasInkBoth a b y then
        ⟨(if kernRowDist a b w y < st.minDist then kernRowDist a b w y else st.minDist),
         true,
         (if maxInkIdx (a.getD y "").toList ≠ -1 ∧
              maxInkIdx (a.getD y "").toList > st.maxAGlobal then
            maxInkIdx (a.getD y "").toList else st.maxAGlobal),
         (if minInkIdx (b.getD y "").toList ≠ -1 ∧
              minInkIdx (b.getD y "").toList < st.minBGlobal then
            minInkIdx (b.getD y "").toList else st.minBGlobal)⟩
      else
        { st with
          maxAGlobal :=
            if maxInkIdx (a.getD y "").toList ≠ -1 ∧
                maxInkIdx (a.getD y "").toList > st.maxAGlobal then
              maxInkIdx (a.getD y "").toList else st.maxAGlobal
          minBGlobal :=
            if minInkIdx (b.getD y "").toList ≠ -1 ∧
                minInkIdx (b.getD y "").toList < st.minBGlobal then
              minInkIdx (b.getD y "").toList else st.minBGlobal } := rfl

/-- A scan step never increases `minDist`. -/
theorem kernStep_minDist_le (a b : List String) (w : Int) (st : KernState) (y : Nat) :
    (kernStep a b w st y).minDist ≤ st.minDist := by
  rw [kernStep_def]
  by_cases h1 : rowHasInkBoth a b y
  · rw [if_pos h1]
    dsimp only
    split_ifs with h2 <;> omega
  · rw [if_neg h1]

/-- A scan step keeps `minDist` or adopts the current row distance. -/
theorem kernStep_minDist_cases (a b : List String) (w : Int) (st : KernState) (y : Nat) :
    (kernStep a b w st y).minDist = st.minDist ∨
      (rowHasInkBoth a b y ∧ (kernStep a b w st y).minDist = kernRowDist a b w y) := by
  rw [kernStep_def]
  by_cases h1 : rowHasInkBoth a b y
  · rw [if_pos h1]
    dsimp only
    split_ifs with h2
    · right; exact ⟨h1, rfl⟩
    · left; rfl
  · rw [if_neg h1]
    left; rfl

/-- A scan step never increases `minDist`. -/
theorem kernStep_minDist_le_dist (a b : List String) (w : Int) (st : KernState) (y : Nat)
    (hc : rowHasInkBoth a b y) :
    (kernStep a b w st y).minDist ≤ kernRowDist a b w y := by
  rw [kernStep_def, if_pos hc]
  dsimp only
  split_ifs with h2
  · exact le_refl _
  · omega

/-- A scan step records overlap exactly when the row has ink in both glyphs. -/
theorem kernStep_overlap (a b : List String) (w : Int) (st : KernState) (y : Nat) :
    (kernStep a b w st y).hasOverlap = true ↔
      (st.hasOverlap = true ∨ rowHasInkBoth a b y) := by
  rw [kernStep_def]
  by_cases h1 : rowHasInkBoth a b y
  · rw [if_pos h1]
    simp [h1]
  · rw [if_neg h1]
    simp [h1]

/-- A scan step keeps the right-edge global or adopts the row right edge. -/
theorem kernStep_maxAG_cases (a b : List String) (w : Int) (st : KernState) (y : Nat) :
    (kernStep a b w st y).maxAGlobal = st.maxAGlobal ∨
      ((kernStep a b w st y).maxAGlobal = maxInkIdx (a.getD y "").toList ∧
        maxInkIdx (a.getD y "").toList ≠ -1) := by
  rw [kernStep_def]
  by_cases h1 : rowHasInkBoth a b y
  · rw [if_pos h1]
    dsimp only
    split_ifs with h2
    · right; exact ⟨rfl, h2.1⟩
    · left; rfl
  · rw [if_neg h1]
    dsimp only
    split_ifs with h2
    · right; exact ⟨rfl, h2.1⟩
    · left; rfl

/-- A scan step preserves non-negativity of the left-edge global. -/
theorem kernStep_minBG_nonneg (a b : List String) (w : Int) (st : KernState) (y : Nat)
    (h : 0 ≤ st.minBGlobal) : 0 ≤ (kernStep a b w st y).minBGlobal := by
  have hB := minInkIdx_cases (b.getD y "").toList
  rw [kernStep_def]
  by_cases h1 : rowHasInkBoth a b y
  · rw [if_pos h1]
    dsimp only
    split_ifs with h2
    · rcases hB with hB | hB
      · exact absurd hB h2.1
      · exact hB
    · exact h
  · rw [if_neg h1]
    dsimp only
    split_ifs with h2
    · rcases hB with hB | hB
      · exact absurd hB h2.1
      · exact hB
    · exact h

/-- The scan loop never increases `minDist`. -/
theorem kernFoldl_minDist_le_init (a b : List String) (w : Int) :
    ∀ (ys : List Nat) (st : KernState),
      ((ys.foldl (kernStep a b w) st).minDist) ≤ st.minDist := by
  intro ys
  induction ys with
  | nil => intro st; exact le_refl _
  | cons y ys ih =>
    intro st
    exact le_trans (ih (kernStep a b w st y)) (kernStep_minDist_le a b w st y)

/-- After the scan loop, `minDist` is at most every scanned common-ink row distance. -/
theorem kernFoldl_minDist_le_dist (a b : List String) (w : Int) :
    ∀ (ys : List Nat) (st : KernState) (y : Nat), y ∈ ys → rowHasInkBoth a b y →
      ((ys.foldl (kernStep a b w) st).minDist) ≤ kernRowDist a b w y := by
  intro ys
  induction ys with
  | nil => intro st y hy; cases hy
  | cons y0 ys ih =>
    intro st y hy hc
    rcases List.mem_cons.mp hy with h | h
    · subst h
      exact le_trans (kernFoldl_minDist_le_init a b w ys _)
        (kernStep_minDist_le_dist a b w st y hc)
    · exact ih (kernStep a b w st y0) y h hc

/-- After the scan loop, `minDist` is its initial value or is attained at a scanned common-ink row. -/
theorem kernFoldl_minDist_attained (a b : List String) (w : Int) :
    ∀ (ys : List Nat) (st : KernState),
      ((ys.foldl (kernStep a b w) st).minDist) = st.minDist ∨
        ∃ y ∈ ys, rowHasInkBoth a b y ∧
          ((ys.foldl (kernStep a b w) st).minDist) = kernRowDist a b w y := by
  intro ys
  induction ys with
  | nil => intro st; left; rfl
  | cons y0 ys ih =>
    intro st
    rcases ih (kernStep a b w st y0) with h | ⟨y, hy, hc, he⟩
    · rcases kernStep_minDist_cases a b w st y0 with h0 | ⟨hc0, he0⟩
      · left
        rw [List.foldl_cons, h, h0]
      · right
        exact ⟨y0, List.mem_cons_self y0 ys, hc0, by rw [List.foldl_cons, h, he0]⟩
    · right
      exact ⟨y, List.mem_cons_of_mem y0 hy, hc, he⟩

/-- The scan loop records overlap exactly when some scanned row has ink in both glyphs. -/
theorem kernFoldl_overlap (a b : List String) (w : Int) :
    ∀ (ys : List Nat) (st : KernState),
      ((ys.foldl (kernStep a b w) st).hasOverlap = true) ↔
        (st.hasOverlap = true ∨ ∃ y ∈ ys, rowHasInkBoth a b y) := by
  intro ys
  induction ys with
  | nil => intro st; simp
  | cons y0 ys ih =>
    intro st
    rw [List.foldl_cons, ih (kernStep a b w st y0), kernStep_overlap]
    constructor
    · intro h
      rcases h with (h | h) | ⟨y, hy, hc⟩
      · exact Or.inl h
      · exact Or.inr ⟨y0, List.mem_cons_self y0 ys, h⟩
      · exact Or.inr ⟨y, List.mem_cons_of_mem y0 hy, hc⟩
    · intro h
      rcases h with h | ⟨y, hy, hc⟩
      · exact Or.inl (Or.inl h)
      · rcases List.mem_cons.mp hy with h | h
        · subst h; exact Or.inl (Or.inr hc)
        · exact Or.inr ⟨y, h, hc⟩

/-- The scan loop keeps the right-edge global at `-1` or within `0..width-1`. -/
theorem kernFoldl_maxAG_cases (a b : List String) (w : Int)
    (hw : ∀ z : Nat, (((a.getD z "").length : Int)) ≤ w) :
    ∀ (ys : List Nat) (st : KernState),
      (st.maxAGlobal = -1 ∨ (0 ≤ st.maxAGlobal ∧ st.maxAGlobal ≤ w - 1)) →
      ((ys.foldl (kernStep a b w) st).maxAGlobal = -1 ∨
        (0 ≤ (ys.foldl (kernStep a b w) st).maxAGlobal ∧
          (ys.foldl (kernStep a b w) st).maxAGlobal ≤ w - 1)) := by
  intro ys
  induction ys with
  | nil => intro st h; exact h
  | cons y0 ys ih =>
    intro st h
    rw [List.foldl_cons]
    apply ih
    rcases kernStep_maxAG_cases a b w st y0 with h0 | ⟨he, hne⟩
    · rw [h0]; exact h
    · right
      rw [he]
      rcases maxInkIdx_cases (a.getD y0 "").toList with hc | hc
      · exact absurd hc hne
      · have hlen : ((a.getD y0 "").toList.length : Int) = ((a.getD y0 "").length : Int) := rfl
        have := hw y0
        constructor
        · exact hc.1
        · rw [← hlen] at this
          omega

/-- The scan loop preserves non-negativity of the left-edge global. -/
theorem kernFoldl_minBG_nonneg (a b : List String) (w : Int) :
    ∀ (ys : List Nat) (st : KernState), 0 ≤ st.minBGlobal →
      0 ≤ ((ys.foldl (kernStep a b w) st).minBGlobal) := by
  intro ys
  induction ys with
  | nil => intro st h; exact h
  | cons y0 ys ih =>
    intro st h
    exact ih (kernStep a b w st y0) (kernStep_minBG_nonneg a b w st y0 h)

/-- Every row of the normalized left glyph fits in its declared width. -/
theorem kernNormA_row_len_le (glyphA glyphB : List String) (z : Nat) :
    (((kernNormA glyphA glyphB).getD z "").length : Int) ≤ kernWidthA glyphA glyphB :=
  maxRowLen_getD_le (kernNormA glyphA glyphB) z

/-- Claim C9: `computeKerning` never returns a positive adjustment: the
normalized left glyph's rightmost ink is at most `widthA - 1` and the
right glyph's leftmost ink is at least 0, so every row distance is at
least 1 and the returned `1 - minDist` is at most 0 (on every code path,
including the no-overlap fallback and the early returns). -/
theorem claim_C9_kerning_nonpositive (glyphA glyphB : List String) :
    computeKerning glyphA glyphB ≤ 0 := by
  unfold computeKerning
  split_ifs with h1 h2 h3 h4
  · exact le_refl 0
  · exact le_refl 0
  · have hmin : 1 ≤ (kernFold glyphA glyphB).minDist := by
      unfold kernFold
      rcases kernFoldl_minDist_attained (kernNormA glyphA glyphB) (kernNormB glyphA glyphB)
          (kernWidthA glyphA glyphB) (List.range (kernHeight glyphA glyphB)) kernInit with
        h | ⟨y, hy, hc, he⟩
      · rw [h]; norm_num [kernInit]
      · rw [he]
        exact kernRowDist_ge_one _ _ _ y (kernNormA_row_len_le glyphA glyphB) hc
    omega
  · have hA := kernFoldl_maxAG_cases (kernNormA glyphA glyphB) (kernNormB glyphA glyphB)
      (kernWidthA glyphA glyphB) (kernNormA_row_len_le glyphA glyphB)
      (List.range (kernHeight glyphA glyphB)) kernInit (Or.inl rfl)
    have hB := kernFoldl_minBG_nonneg (kernNormA glyphA glyphB) (kernNormB glyphA glyphB)
      (kernWidthA glyphA glyphB) (List.range (kernHeight glyphA glyphB)) kernInit
      (by norm_num [kernInit])
    rw [show (List.range (kernHeight glyphA glyphB)).foldl
        (kernStep (kernNormA glyphA glyphB) (kernNormB glyphA glyphB)
          (kernWidthA glyphA glyphB)) kernInit = kernFold glyphA glyphB from rfl] at hA hB
    rcases hA with hA | hA
    · exact absurd hA h4.1
    · omega
  · exact le_refl 0

/-- Claim C3 (amended): for glyph pairs with ink on a common row after
height normalization *whose tightest common-row distance is below the
scan's `1000` sentinel*, placing the right glyph at `widthA + k` (where
`k = computeKerning`) makes the minimum over common-ink rows of the
distance from the left glyph's rightmost ink to the right glyph's
leftmost ink exactly 1 (at least 1 on every common row, exactly 1 on
some); and the caller adds user character spacing strictly on top of
this baseline (the advance is additive in the spacing).  Glyphs reaching
row distances of 1000 or more break the exactness — see the
counterexample. -/
theorem claim_C3_amended_kerning (glyphA glyphB : List String)
    (hex : ∃ y, y < kernHeight glyphA glyphB ∧
      rowHasInkBoth (kernNormA glyphA glyphB) (kernNormB glyphA glyphB) y ∧
      kernRowDist (kernNormA glyphA glyphB) (kernNormB glyphA glyphB)
        (kernWidthA glyphA glyphB) y < 1000) :
    (∀ y, y < kernHeight glyphA glyphB →
      rowHasInkBoth (kernNormA glyphA glyphB) (kernNormB glyphA glyphB) y →
      1 ≤ kernRowDist (kernNormA glyphA glyphB) (kernNormB glyphA glyphB)
          (kernWidthA glyphA glyphB) y + computeKerning glyphA glyphB) ∧
    (∃ y, y < kernHeight glyphA glyphB ∧
      rowHasInkBoth (kernNormA glyphA glyphB) (kernNormB glyphA glyphB) y ∧
      kernRowDist (kernNormA glyphA glyphB) (kernNormB glyphA glyphB)
          (kernWidthA glyphA glyphB) y + computeKerning glyphA glyphB = 1) ∧
    (∀ (cs : RenderCaches) (runes : List Char) (ws : ℚ) (row idx : Nat) (s : Int),
      runes.getD (idx - 1) ' ' ≠ ' ' →
      charAdvance cs runes s ws row idx = charAdvance cs runes 0 ws row idx + (s : ℚ)) := by
  obtain ⟨y0, hy0, hc0, hd0⟩ := hex
  have hA : ¬(glyphA.length = 0 ∨ glyphB.length = 0) := by
    rintro (h | h)
    · have hrow : (kernNormA glyphA glyphB).getD y0 "" = "" := by
        have hga : glyphA = [] := List.length_eq_zero.mp h
        subst hga
        unfold kernNormA normalizeGlyph
        by_cases hy : y0 < kernHeight [] glyphB
        · rw [List.getD_eq_getElem?_getD, List.getElem?_map]
          simp [List.getElem?_range hy]
        · rw [List.getD_eq_default]
          simp
          omega
      have hc0a := hc0.1
      rw [hrow] at hc0a
      exact hc0a rfl
    · have hrow : (kernNormB glyphA glyphB).getD y0 "" = "" := by
        have hgb : glyphB = [] := List.length_eq_zero.mp h
        subst hgb
        unfold kernNormB normalizeGlyph
        by_cases hy : y0 < kernHeight glyphA []
        · rw [List.getD_eq_getElem?_getD, List.getElem?_map]
          simp [List.getElem?_range hy]
        · rw [List.getD_eq_default]
          simp
          omega
      have hc0b := hc0.2
      rw [hrow] at hc0b
      exact hc0b rfl
  have hW : ¬(kernWidthA glyphA glyphB = 0) := by
    intro h
    have hle := kernNormA_row_len_le glyphA glyphB y0
    rw [h] at hle
    have hz : ((kernNormA glyphA glyphB).getD y0 "").length = 0 := by omega
    have hrow : ((kernNormA glyphA glyphB).getD y0 "").toList = [] := by
      have : ((kernNormA glyphA glyphB).getD y0 "").toList.length = 0 := hz
      exact List.length_eq_zero.mp this
    have hc0a := hc0.1
    rw [hrow] at hc0a
    exact hc0a rfl
  have hOv : (kernFold glyphA glyphB).hasOverlap = true := by
    unfold kernFold
    rw [kernFoldl_overlap]
    exact Or.inr ⟨y0, List.mem_range.mpr hy0, hc0⟩
  have hck : computeKerning glyphA glyphB = 1 - (kernFold glyphA glyphB).minDist := by
    unfold computeKerning
    rw [if_neg hA, if_neg hW, if_pos hOv]
  have hle0 : (kernFold glyphA glyphB).minDist ≤ kernRowDist (kernNormA glyphA glyphB)
      (kernNormB glyphA glyphB) (kernWidthA glyphA glyphB) y0 := by
    unfold kernFold
    exact kernFoldl_minDist_le_dist _ _ _ _ kernInit y0 (List.mem_range.mpr hy0) hc0
  have hatt := kernFoldl_minDist_attained (kernNormA glyphA glyphB) (kernNormB glyphA glyphB)
    (kernWidthA glyphA glyphB) (List.range (kernHeight glyphA glyphB)) kernInit
  rw [show (List.range (kernHeight glyphA glyphB)).foldl
      (kernStep (kernNormA glyphA glyphB) (kernNormB glyphA glyphB)
        (kernWidthA glyphA glyphB)) kernInit = kernFold glyphA glyphB from rfl] at hatt
  refine ⟨?_, ?_, ?_⟩
  · intro y hy hc
    have := kernFoldl_minDist_le_dist (kernNormA glyphA glyphB) (kernNormB glyphA glyphB)
      (kernWidthA glyphA glyphB) (List.range (kernHeight glyphA glyphB)) kernInit y
      (List.mem_range.mpr hy) hc
    rw [show (List.range (kernHeight glyphA glyphB)).foldl
        (kernStep (kernNormA glyphA glyphB) (kernNormB glyphA glyphB)
          (kernWidthA glyphA glyphB)) kernInit = kernFold glyphA glyphB from rfl] at this
    omega
  · rcases hatt with h | ⟨y1, hy1, hc1, he1⟩
    · rw [show kernInit.minDist = 1000 from rfl] at h
      omega
    · exact ⟨y1, List.mem_range.mp hy1, hc1, by omega⟩
  · intro cs runes ws row idx s hne
    unfold charAdvance
    have hmk : ¬(String.mk [runes.getD (idx - 1) ' '] = " ") := by
      intro hmk
      apply hne
      have := congrArg String.data hmk
      simpa using this
    rw [if_neg hmk, if_neg hmk]
    by_cases hs : s = 0
    · subst hs
      rw [if_pos rfl]
      ring
    · rw [if_neg hs, if_pos rfl]
      simp only [qadd_eq]
      ring

set_option maxRecDepth 100000 in
/-- Counterexample to C3 as stated: a left glyph 1001 columns wide with
ink only in column 0, against a single-block right glyph.  The only
common row has distance 1001, beyond the scan's `minDist := 1000`
sentinel ("effectively infinity"), so `computeKerning` returns `-999`
and the resulting tightest gap is 2, not 1. -/
theorem claim_C3_counterexample :
    rowHasInkBoth (kernNormA [String.mk ('█' :: List.replicate 1000 ' ')] ["█"])
        (kernNormB [String.mk ('█' :: List.replicate 1000 ' ')] ["█"]) 0 ∧
      computeKerning [String.mk ('█' :: List.replicate 1000 ' ')] ["█"] = -999 ∧
      kernRowDist (kernNormA [String.mk ('█' :: List.replicate 1000 ' ')] ["█"])
          (kernNormB [String.mk ('█' :: List.replicate 1000 ' ')] ["█"])
          (kernWidthA [String.mk ('█' :: List.replicate 1000 ' ')] ["█"]) 0 +
        computeKerning [String.mk ('█' :: List.replicate 1000 ' ')] ["█"] = 2 := by
  refine ⟨by decide, by decide, by decide⟩

/-- Witness for the amended C3: two single-block glyphs share their only
row, the distance is below the sentinel, and the gap after kerning is
exactly 1. -/
theorem claim_C3_witness :
    (0 < kernHeight ["█"] ["█"] ∧
      rowHasInkBoth (kernNormA ["█"] ["█"]) (kernNormB ["█"] ["█"]) 0 ∧
      kernRowDist (kernNormA ["█"] ["█"]) (kernNormB ["█"] ["█"]) (kernWidthA ["█"] ["█"]) 0 < 1000) ∧
    (∃ y, y < kernHeight ["█"] ["█"] ∧
      rowHasInkBoth (kernNormA ["█"] ["█"]) (kernNormB ["█"] ["█"]) y ∧
      kernRowDist (kernNormA ["█"] ["█"]) (kernNormB ["█"] ["█"]) (kernWidthA ["█"] ["█"]) y +
        computeKerning ["█"] ["█"] = 1) :=
  ⟨⟨by decide, by decide, by decide⟩,
   (claim_C3_amended_kerning ["█"] ["█"] ⟨0, by decide, by decide, by decide⟩).2.1⟩

/-- Witness for C6: the space in `ab cd` is a word boundary, the space in
`a b` is not, and the composer charges exactly `0.5` for the latter. -/
theorem claim_C6_witness :
    isSpaceAtWordBoundary "ab cd".toList 2 = true ∧
      isSpaceAtWordBoundary "a b".toList 1 = false ∧
      charAdvance emptyCaches "a b".toList 0 (2 : ℚ) 0 2 = 1/2 := by
  refine ⟨by decide, by decide, ?_⟩
  have h := (claim_C6_word_boundary "a b".toList 1 emptyCaches 0 2 0 2).2 (by decide)
  rw [h]
  rw [show isSpaceAtWordBoundary "a b".toList 1 = false from by decide]
  rfl

/-- The rainbow scan finds no invalid entry iff all entries are valid hex colors. -/
theorem findBadRainbowAux (colors : List String) : ∀ n : Nat,
    (List.enumFrom n colors).find? (fun p => !isValidHexColor p.2) = none ↔
      ∀ c ∈ colors, isValidHexColor c = true := by
  induction colors with
  | nil => intro n; simp
  | cons c cs ih =>
    intro n
    by_cases hc : isValidHexColor c
    · have hstep : (List.enumFrom n (c :: cs)).find? (fun p => !isValidHexColor p.2) =
          (List.enumFrom (n + 1) cs).find? (fun p => !isValidHexColor p.2) := by
        simp [List.enumFrom, List.find?_cons, hc]
      rw [hstep, ih (n + 1)]
      constructor
      · intro h x hx
        rcases List.mem_cons.mp hx with h2 | h2
        · subst h2; exact hc
        · exact h x h2
      · intro h x hx
        exact h x (List.mem_cons_of_mem c hx)
    · simp only [List.enumFrom, List.find?_cons]
      simp [hc]

/-- `firstBadRainbow` is `none` iff every entry is a valid hex color. -/
theorem firstBadRainbow_eq_none_iff (colors : List String) :
    firstBadRainbow colors = none ↔ ∀ c ∈ colors, isValidHexColor c = true := by
  unfold firstBadRainbow
  exact findBadRainbowAux colors 0

/-- One validation check passes iff its condition fails and the rest passes. -/
theorem validateStepEqNone (c : Prop) [Decidable c] (e : ValidationErr) (rest : Option ValidationErr) :
    ((if c then some e else rest) = none) ↔ (¬ c ∧ rest = none) := by
  split_ifs with h <;> simp [h]

/-- The rainbow-check match yields no error iff the scan found nothing. -/
theorem matchBadRainbow_eq_none (colors : List String)
    (f : Nat × String → ValidationErr) :
    ((match firstBadRainbow colors with
      | some p => some (f p)
      | none => none) = none) ↔ firstBadRainbow colors = none := by
  cases h : firstBadRainbow colors <;> simp

/-- Claim C5 (amended): `Validate` succeeds iff every numeric field is
within its documented bounds, the enum fields hold valid values, and
`TextColor` is a strict 7-character `#RRGGBB` hex string — but
`GradientColor` is checked only when `UseGradient` is set, and the
`RainbowColors` entries only when `ColorMode` is `Rainbow` (the claim's
unconditional reading of those two color checks is refuted by the
counterexample).  Validation never modifies the options (it is a pure
function of them). -/
theorem claim_C5_amended_validate (opts : RenderOptions) :
    Validate opts = none ↔
      ((MinCharSpacing ≤ opts.CharSpacing ∧ opts.CharSpacing ≤ MaxCharSpacing) ∧
       (MinWordSpacing ≤ opts.WordSpacing ∧ opts.WordSpacing ≤ MaxWordSpacing) ∧
       (MinLineSpacing ≤ opts.LineSpacing ∧ opts.LineSpacing ≤ MaxLineSpacing) ∧
       (MinScaleFactor ≤ opts.ScaleFactor ∧ opts.ScaleFactor ≤ MaxScaleFactor) ∧
       (MinShadowOffset ≤ opts.ShadowHorizontalOffset ∧
         opts.ShadowHorizontalOffset ≤ MaxShadowOffset) ∧
       (MinShadowOffset ≤ opts.ShadowVerticalOffset ∧
         opts.ShadowVerticalOffset ≤ MaxShadowOffset) ∧
       (LeftAlign ≤ opts.Alignment ∧ opts.Alignment ≤ RightAlign) ∧
       (UpDown ≤ opts.GradientDirection ∧ opts.GradientDirection ≤ RightLeft) ∧
       (LightShade ≤ opts.ShadowStyle ∧ opts.ShadowStyle ≤ DarkShade) ∧
       (SingleColor ≤ opts.ColorMode ∧ opts.ColorMode ≤ Rainbow) ∧
       isValidHexColor opts.TextColor = true ∧
       (opts.UseGradient = true → isValidHexColor opts.GradientColor = true) ∧
       (opts.ColorMode = Rainbow → ∀ c ∈ opts.RainbowColors, isValidHexColor c = true)) := by
  unfold Validate
  rw [validateStepEqNone, validateStepEqNone, validateStepEqNone,
    validateStepEqNone, validateStepEqNone, validateStepEqNone,
    validateStepEqNone, validateStepEqNone, validateStepEqNone,
    validateStepEqNone, validateStepEqNone, validateStepEqNone]
  constructor
  · rintro ⟨h1, h2, h3, h4, h5, h6, h7, h8, h9, h10, h11, h12, hrest⟩
    push_neg at h4
    refine ⟨by omega, by omega, by omega, h4, by omega, by omega, by omega, by omega,
      by omega, by omega, by tauto, by tauto, ?_⟩
    intro hcm c hc
    by_cases hlen : opts.RainbowColors.length > 0
    · rw [if_pos ⟨hcm, hlen⟩, matchBadRainbow_eq_none] at hrest
      exact (firstBadRainbow_eq_none_iff opts.RainbowColors).mp hrest c hc
    · have : opts.RainbowColors = [] := by
        cases hrc : opts.RainbowColors with
        | nil => rfl
        | cons a l => rw [hrc] at hlen; simp at hlen
      rw [this] at hc
      cases hc
  · rintro ⟨b1, b2, b3, b4, b5, b6, b7, b8, b9, b10, b11, b12, b13⟩
    refine ⟨by omega, by omega, by omega, ?_, by omega, by omega, by omega, by omega,
      by omega, by omega, by tauto, by tauto, ?_⟩
    · rintro (h | h)
      · exact absurd h (not_lt.mpr b4.1)
      · exact absurd h (not_lt.mpr b4.2)
    · by_cases hc13 : opts.ColorMode = Rainbow ∧ opts.RainbowColors.length > 0
      · rw [if_pos hc13, matchBadRainbow_eq_none]
        exact (firstBadRainbow_eq_none_iff opts.RainbowColors).mpr (b13 hc13.1)
      · rw [if_neg hc13]

/-- Counterexample to C5 as stated: the default options validate even
though their `GradientColor` (the empty string) is not a valid
`#RRGGBB` color — so acceptance does not imply that every color field
passes the hex check. -/
theorem claim_C5_counterexample :
    Validate DefaultRenderOptions = none ∧
      DefaultRenderOptions.GradientColor = "" ∧
      isValidHexColor DefaultRenderOptions.GradientColor = false := by
  refine ⟨by decide, rfl, by decide⟩

/-! ## C7: styled-output grammar -/

/-- `clamp v lo hi` lands in `[lo, hi]` whenever `lo ≤ hi`. -/
theorem clamp_bounds (v lo hi : Int) (h : lo ≤ hi) :
    lo ≤ clamp v lo hi ∧ clamp v lo hi ≤ hi := by
  unfold clamp
  constructor
  · exact le_max_left lo _
  · rw [max_le_iff]
    exact ⟨h, min_le_right v hi⟩

/-- Every channel produced by `hexToRGB` lies in `[0, 255]`: the invalid-input
branches return literal `0` and the parsing branch clamps to `[0, 255]`. -/
theorem hexToRGB_bounds (hex : String) :
    (0 ≤ (hexToRGB hex).1 ∧ (hexToRGB hex).1 ≤ 255) ∧
      (0 ≤ (hexToRGB hex).2.1 ∧ (hexToRGB hex).2.1 ≤ 255) ∧
      (0 ≤ (hexToRGB hex).2.2 ∧ (hexToRGB hex).2.2 ≤ 255) := by
  unfold hexToRGB
  split_ifs with h1
  · norm_num
  · dsimp only
    split_ifs with h2
    · norm_num
    · exact ⟨clamp_bounds _ _ _ (by norm_num), clamp_bounds _ _ _ (by norm_num),
        clamp_bounds _ _ _ (by norm_num)⟩

/-- Character-level shape of one emitted colored cell, with an arbitrary
continuation appended. -/
theorem emitCell_unit (r g b : Int) (c : Char) (cs : List Char) :
    (emitCell r g b c).toList ++ cs =
      '\x1b' :: '[' :: '3' :: '8' :: ';' :: '2' :: ';' ::
        ((toString r).toList ++ ';' :: (toString g).toList ++ ';' :: (toString b).toList ++
          'm' :: c :: '\x1b' :: '[' :: '0' :: 'm' :: cs) := by
  show (emitCell r g b c).data ++ cs = _
  simp only [emitCell, String.data_append]
  simp [String.toList]

/-- One colored cell followed by a well-formed row is a well-formed row. -/
theorem styledRow_unit (r g b : Int) (c : Char) (cs : List Char)
    (hc : c ≠ ' ') (hr : 0 ≤ r) (hr2 : r ≤ 255) (hg : 0 ≤ g) (hg2 : g ≤ 255)
    (hb : 0 ≤ b) (hb2 : b ≤ 255) (hrest : StyledRow cs) :
    StyledRow ((emitCell r g b c).toList ++ cs) := by
  rw [emitCell_unit]
  exact StyledRow.colored r g b c cs hc hr hr2 hg hg2 hb hb2 hrest

/-- Every row emitted by `emitRow` satisfies the `StyledRow` grammar: spaces
are bare, everything else is wrapped in exactly one `ESC[38;2;R;G;Bm … ESC[0m`
pair with in-range channels. -/
theorem emitRow_styled (ctx : StyleCtx) :
    ∀ (row : List CanvasCell) (x : Nat), StyledRow (emitRow ctx x row).toList := by
  intro row
  induction row with
  | nil => intro x; exact StyledRow.nil
  | cons cell cells ih =>
    intro x
    show StyledRow (styledCell ctx cell x ++ emitRow ctx (x + 1) cells).toList
    rw [show (styledCell ctx cell x ++ emitRow ctx (x + 1) cells).toList =
      (styledCell ctx cell x).toList ++ (emitRow ctx (x + 1) cells).toList from
      String.data_append _ _]
    unfold styledCell
    by_cases hsp : cell.cchar = ' '
    · rw [if_pos hsp]
      exact StyledRow.space _ (ih (x + 1))
    · rw [if_neg hsp]
      have hb := hexToRGB_bounds (resolveCellColor ctx cell x)
      exact styledRow_unit _ _ _ _ _ hsp hb.1.1 hb.1.2 hb.2.1.1 hb.2.1.2 hb.2.2.1 hb.2.2.2
        (ih (x + 1))

/-- How trailing-space trimming distributes over append. -/
theorem rtrimList_append (u v : List Char) :
    rtrimList (u ++ v) = if rtrimList v = [] then rtrimList u else u ++ rtrimList v := by
  unfold rtrimList
  rw [List.reverse_append, List.dropWhile_append]
  by_cases h : (v.reverse.dropWhile (fun c => c = ' ')) = []
  · rw [if_pos (by simpa using h), if_pos (by simp [h])]
  · rw [if_neg (by simpa using h), if_neg (by simp [h]), List.reverse_append,
      List.reverse_reverse]

/-- Trimming fixes a list whose last element is not a space. -/
theorem rtrimList_single (c : Char) (h : c ≠ ' ') (w : List Char) :
    rtrimList (w ++ [c]) = w ++ [c] := by
  unfold rtrimList
  rw [List.reverse_append]
  simp [List.dropWhile, h]

/-- Regrouping of a colored unit so that the `m` of the reset escape is the
last element before the continuation. -/
theorem styledRow_colored_assoc (r g b : Int) (c : Char) (t : List Char) :
    '\x1b' :: '[' :: '3' :: '8' :: ';' :: '2' :: ';' ::
        ((toString r).toList ++ ';' :: (toString g).toList ++ ';' :: (toString b).toList ++
          'm' :: c :: '\x1b' :: '[' :: '0' :: 'm' :: t)
      = ('\x1b' :: '[' :: '3' :: '8' :: ';' :: '2' :: ';' ::
          ((toString r).toList ++ ';' :: (toString g).toList ++ ';' :: (toString b).toList ++
            'm' :: c :: '\x1b' :: '[' :: ['0'])) ++ ['m'] ++ t := by
  simp [List.append_assoc]

/-- The `StyledRow` grammar is closed under trailing-space trimming: trimming
either cuts only trailing `space` units or stops at the final `m` of a reset
escape. -/
theorem styledRow_rtrimList {cs : List Char} (h : StyledRow cs) :
    StyledRow (rtrimList cs) := by
  induction h with
  | nil => exact StyledRow.nil
  | space cs hcs ih =>
    rw [show (' ' :: cs) = [' '] ++ cs from rfl, rtrimList_append]
    by_cases h0 : rtrimList cs = []
    · rw [if_pos h0]
      have he : rtrimList [' '] = [] := by decide
      rw [he]
      exact StyledRow.nil
    · rw [if_neg h0]
      exact StyledRow.space _ ih
  | colored r g b c cs hc hr hr2 hg hg2 hb hb2 hcs ih =>
    rw [styledRow_colored_assoc, rtrimList_append]
    by_cases h0 : rtrimList cs = []
    · rw [if_pos h0, rtrimList_single _ (by decide)]
      have h1 := styledRow_colored_assoc r g b c []
      rw [List.append_nil] at h1
      rw [← h1]
      exact StyledRow.colored r g b c [] hc hr hr2 hg hg2 hb hb2 StyledRow.nil
    · rw [if_neg h0, ← styledRow_colored_assoc r g b c (rtrimList cs)]
      exact StyledRow.colored r g b c _ hc hr hr2 hg hg2 hb hb2 ih

/-- C7: in the styled output of the compositor (`applyStylingAndShadow`),
every space cell is emitted as a bare space with no ANSI escape, and every
non-space cell is wrapped in exactly one 24-bit foreground escape
`ESC[38;2;R;G;Bm` (channels in `[0, 255]`) followed by the single character
and the reset `ESC[0m`; no other ANSI sequences occur. The grammar
`StyledRow` admits exactly such rows. -/
theorem claim_C7_styled_output (plainBlock : List String) (opts : RenderOptions) :
    ∀ row ∈ applyStylingAndShadow plainBlock opts, StyledRow row.toList := by
  intro row hrow
  unfold applyStylingAndShadow at hrow
  by_cases h0 : plainBlock.length = 0
  · rw [if_pos h0] at hrow
    rcases List.length_eq_zero.mp h0 with rfl
    simp at hrow
  · rw [if_neg h0] at hrow
    rcases List.mem_map.mp hrow with ⟨cells, _, rfl⟩
    show StyledRow (rtrimList (emitRow (styleCtxOf plainBlock opts) 0 cells).toList)
    exact styledRow_rtrimList (emitRow_styled _ cells 0)

/-- Witness: the theorem applied to the concrete one-character block `["X"]`
under the default options, whose single output row is computed by the kernel. -/
theorem claim_C7_witness :
    StyledRow ("\x1b[38;2;255;255;255mX\x1b[0m".toList) :=
  claim_C7_styled_output ["X"] DefaultRenderOptions "\x1b[38;2;255;255;255mX\x1b[0m" (by decide)

/-- Witness for C5 (amended): the equivalence applied at the default
options, whose right-hand side is checked by the kernel. -/
theorem claim_C5_witness : Validate DefaultRenderOptions = none :=
  (claim_C5_amended_validate DefaultRenderOptions).mpr (by decide)

/-- Witness for C8 (amended): the assembly equivalence applied at a
concrete continuation, line spacing and block list. -/
theorem claim_C8_witness :
    assembleLoop id 1 [["aa"], ["b"]] = specAssemble id 1 [["aa"], ["b"]] :=
  claim_C8_amended_assembly id 1 [["aa"], ["b"]]

/-- Witness for C9: the kerning bound applied at a concrete glyph pair. -/
theorem claim_C9_witness :
    computeKerning ["██", "█ "] [" █", "██"] ≤ 0 :=
  claim_C9_kerning_nonpositive ["██", "█ "] [" █", "██"]
